import Mathlib

set_option maxRecDepth 40000
set_option maxHeartbeats 1000000

/-!
# Verification of the amazon-profit-calculator aggregation core

Shallow embedding of `src/main.py` and `src/process_expense_ad.py`.
Python strings are modelled as `List Char`; Python `float` values as exact
rationals together with the IEEE special values (`PyFloat`); Python `None`
as `Option.none`.  CSV rows are association lists from (possibly `None`)
column names to (possibly `None`) cell values, matching what
`csv.DictReader` can produce.  Exceptions are modelled with `Except`.
-/

namespace APC

/-- Python strings, modelled as their list of characters. -/
abbrev Str := List Char

/-- Convert a Lean string literal to the `Str` model. -/
def toStr (s : String) : Str := s.data

/-- ASCII whitespace as recognised by Python `str.strip()` / `int()` / `float()`.
(Python additionally strips some Unicode space characters; none of the
behaviour verified here depends on those.) -/
def pyIsSpace (c : Char) : Bool :=
  c == ' ' || c == '\t' || c == '\n' || c == '\r' || c == '\x0b' || c == '\x0c'

/-- Python `str.strip()`. -/
def pyStrip (s : Str) : Str :=
  ((s.dropWhile pyIsSpace).reverse.dropWhile pyIsSpace).reverse

/-- Python `str.lower()`, restricted to ASCII letters.  Every lower-cased
comparison performed by the source uses ASCII or CJK text, and CJK
characters are fixed points of `str.lower()`. -/
def pyLower (s : Str) : Str := s.map Char.toLower

/-- `pat` is a prefix of `s` (Boolean). -/
def strHasPre : Str → Str → Bool
  | [], _ => true
  | _ :: _, [] => false
  | p :: ps, c :: cs => p == c && strHasPre ps cs

/-- Python substring containment `pat in s`. -/
def hasSub : Str → Str → Bool
  | [], pat => pat.isEmpty
  | c :: rest, pat => strHasPre pat (c :: rest) || hasSub rest pat

/-- Python `any(term in s for term in terms)`. -/
def anyTerm (terms : List Str) (s : Str) : Bool :=
  terms.any (fun t => hasSub s t)

/-- Python `s.replace(c, '')` for a single-character pattern: every `replace`
in the source removes one character (`','`, `'¥'`, `'円'`, `'￥'`, U+FEFF). -/
def removeChar (c : Char) (s : Str) : Str := s.filter (fun x => x ≠ c)

/-- Python `s.split(sep)` for a single-character separator. -/
def splitChar (sep : Char) : Str → List Str
  | [] => [[]]
  | c :: rest =>
    if c = sep then [] :: splitChar sep rest
    else
      match splitChar sep rest with
      | [] => [[c]]
      | h :: t => (c :: h) :: t

/-- Decimal digit test. -/
def isDigitB (c : Char) : Bool := '0' ≤ c && c ≤ '9'

/-- Numeric value of a decimal digit. -/
def digitVal (c : Char) : Nat := c.toNat - 48

/-- Continue parsing a digit run in the style of Python's number grammar:
single underscores are allowed between two digits.  Accumulates the value
and the number of digits consumed so far. -/
def digitsCount : Nat → Nat → Str → Option (Nat × Nat)
  | acc, n, [] => some (acc, n)
  | acc, n, [c] =>
    if isDigitB c then some (acc * 10 + digitVal c, n + 1) else none
  | acc, n, c :: c2 :: rest =>
    if isDigitB c then digitsCount (acc * 10 + digitVal c) (n + 1) (c2 :: rest)
    else if c == '_' && isDigitB c2 then
      digitsCount (acc * 10 + digitVal c2) (n + 1) rest
    else none

/-- Parse a non-empty digit run (Python number grammar, underscores allowed
between digits); returns the value and the number of digits. -/
def parseUDigits : Str → Option (Nat × Nat)
  | [] => none
  | c :: rest => if isDigitB c then digitsCount (digitVal c) 1 rest else none

/-- Python `int(s)` on a string: surrounding whitespace, an optional sign,
then a digit run. Returns `none` where Python raises `ValueError`. -/
def pyInt (s : Str) : Option Int :=
  match pyStrip s with
  | '+' :: rest => (parseUDigits rest).map (fun p => (p.1 : Int))
  | '-' :: rest => (parseUDigits rest).map (fun p => -(p.1 : Int))
  | t => (parseUDigits t).map (fun p => (p.1 : Int))

/-- Python `float` values: exact finite rationals plus the IEEE special
values.  Rounding of decimal literals to binary doubles is not modelled;
no verified property depends on it. -/
inductive PyFloat where
  | finite (q : ℚ)
  | infty (neg : Bool)
  | nan
deriving DecidableEq

/-- The float `0` (also Python's `int` 0 as returned by `safe_float_convert`:
`0 == 0.0` in Python, so one value stands for both). -/
def pfZero : PyFloat := .finite (mkRat 0 1)

/-- Parse the exponent part of a float literal. -/
def parseExpPart (s : Str) : Option Int :=
  match s with
  | '+' :: rest => (parseUDigits rest).map (fun p => (p.1 : Int))
  | '-' :: rest => (parseUDigits rest).map (fun p => -(p.1 : Int))
  | t => (parseUDigits t).map (fun p => (p.1 : Int))

/-- Parse the mantissa of a float literal: `digits`, `digits.`, `.digits`
or `digits.digits`. -/
def parseMantissa (s : Str) : Option ℚ :=
  match splitChar '.' s with
  | [i] => (parseUDigits i).map (fun p => mkRat p.1 1)
  | [i, f] =>
    if i = [] ∧ f = [] then none
    else if i = [] then (parseUDigits f).map (fun p => mkRat p.1 (10 ^ p.2))
    else if f = [] then (parseUDigits i).map (fun p => mkRat p.1 1)
    else do
      let pi ← parseUDigits i
      let pf ← parseUDigits f
      pure (mkRat pi.1 1 + mkRat pf.1 (10 ^ pf.2))
  | _ => none

/-- Scale a mantissa by a decimal exponent. -/
def applyExp (q : ℚ) (e : Int) : ℚ :=
  if 0 ≤ e then q * mkRat (10 ^ e.toNat) 1 else q / mkRat (10 ^ (-e).toNat) 1

/-- Python `float(s)` on a string: whitespace, optional sign, then
`inf`/`infinity`/`nan` (case-insensitive) or a decimal literal with an
optional exponent.  Returns `none` where Python raises `ValueError`. -/
def pyFloatParse (s : Str) : Option PyFloat :=
  let t := pyStrip s
  let sb : Bool × Str :=
    match t with
    | '+' :: r => (false, r)
    | '-' :: r => (true, r)
    | r => (false, r)
  let lb := pyLower sb.2
  if lb = toStr "inf" ∨ lb = toStr "infinity" then some (.infty sb.1)
  else if lb = toStr "nan" then some .nan
  else
    match splitChar 'e' lb with
    | [m] => (parseMantissa m).map (fun q => .finite (if sb.1 then -q else q))
    | [m, ex] => do
      let q ← parseMantissa m
      let e ← parseExpPart ex
      pure (.finite (if sb.1 then -(applyExp q e) else applyExp q e))
    | _ => none

/-- A CSV cell value: Python `None` or a string. -/
abbrev Val := Option Str

/-- A CSV column name.  `csv.DictReader` yields string keys, plus the key
`None` for overflow fields (`restkey`), so a key may be Python `None`. -/
abbrev Key := Option Str

/-- One CSV row, as an ordered mapping (Python `dict` preserves insertion
order; the rows the source iterates have pairwise-distinct keys). -/
abbrev Row := List (Key × Val)

/-- Python truthiness of a cell value (`None` and `''` are falsy). -/
def truthyV : Val → Bool
  | Option.none => false
  | some s => !s.isEmpty

/-- Python `str(v)` of a cell value (`str(None) = "None"`). -/
def pyValStr : Val → Str
  | Option.none => toStr "None"
  | some s => s

/-- `safe_float_convert` (src/main.py lines 224-235 and
src/process_expense_ad.py lines 12-23, textually identical):
`None`/empty/whitespace-only input gives 0; otherwise the string is
cleaned of `','`, `'¥'`, `'円'`, `'￥'` and stripped; the sentinel tokens
`none`/`null`/`nan`/`-`/`''` (lower-cased) give 0; otherwise `float()`
parses it, any `ValueError` giving 0. -/
def safe_float_convert (value : Val) : PyFloat :=
  match value with
  | Option.none => pfZero
  | some s =>
    if s = [] ∨ pyStrip s = [] then pfZero
    else
      let cleaned := pyStrip (removeChar '￥' (removeChar '円' (removeChar '¥' (removeChar ',' s))))
      if pyLower cleaned ∈ [toStr "none", toStr "null", toStr "nan", toStr "-", ([] : Str)] then pfZero
      else
        match pyFloatParse cleaned with
        | some f => f
        | Option.none => pfZero

/-- Fuel-driven decimal rendering of a natural number. -/
def natDigits : Nat → Nat → Str
  | 0, _ => []
  | fuel + 1, n =>
    if n < 10 then [Char.ofNat (48 + n)]
    else natDigits fuel (n / 10) ++ [Char.ofNat (48 + n % 10)]

/-- Python `str(n)` for a natural number. -/
def natToStr (n : Nat) : Str := natDigits (n + 1) n

/-- Python `str(i)` for an integer. -/
def intToStr (i : Int) : Str :=
  if i < 0 then '-' :: natToStr i.natAbs else natToStr i.toNat

/-- Python `f"{m:02d}"`. -/
def pad2 (m : Int) : Str :=
  if 0 ≤ m ∧ m < 10 then '0' :: natToStr m.toNat else intToStr m

/-- Python `f"{year}-{month:02d}"`. -/
def fmtYM (y m : Int) : Str := intToStr y ++ toStr "-" ++ pad2 m

/-- The year/month candidate extracted from the `/`-separated tokens
(src/main.py lines 249-261): first token of length 4 means `YYYY/MM`;
exactly 3 tokens with a length-4 last token means `MM/DD/YYYY`; otherwise
the first token is a 2-digit year prefixed with `"20"` and the second
token is the month.  `none` models the `ValueError` caught by the source. -/
def slashYM (parts : List Str) : Option (Int × Int) :=
  if (parts.getD 0 []).length = 4 then do
    let y ← pyInt (parts.getD 0 [])
    let m ← pyInt (parts.getD 1 [])
    pure (y, m)
  else if parts.length = 3 ∧ (parts.getD 2 []).length = 4 then do
    let m ← pyInt (parts.getD 0 [])
    let y ← pyInt (parts.getD 2 [])
    pure (y, m)
  else do
    let y ← pyInt (toStr "20" ++ parts.getD 0 [])
    let m ← pyInt (parts.getD 1 [])
    pure (y, m)

/-- The year/month candidate from the `-`-separated tokens
(src/main.py lines 271-273). -/
def dashYM (parts : List Str) : Option (Int × Int) := do
  let y ← pyInt (parts.getD 0 [])
  let m ← pyInt (parts.getD 1 [])
  pure (y, m)

/-- Range validation and formatting shared by both branches
(src/main.py lines 264-265 and 274-275). -/
def validYM : Option (Int × Int) → Option Str
  | some (y, m) =>
    if 2020 ≤ y ∧ y ≤ 2030 ∧ 1 ≤ m ∧ m ≤ 12 then some (fmtYM y m) else none
  | Option.none => none

/-- `extract_month_from_date` (src/main.py lines 237-283 and
src/process_expense_ad.py lines 25-71, textually identical). -/
def extract_month_from_date (date_str : Str) : Str :=
  if date_str = [] ∨ pyStrip date_str = [] then toStr "2025-06"
  else
    let s := pyStrip date_str
    if hasSub s (toStr "/") then
      let parts := splitChar '/' s
      if parts.length ≥ 2 then
        match validYM (slashYM parts) with
        | some r => r
        | Option.none => toStr "2025-06"
      else toStr "2025-06"
    else if hasSub s (toStr "-") then
      let parts := splitChar '-' s
      if parts.length ≥ 2 then
        match validYM (dashYM parts) with
        | some r => r
        | Option.none => toStr "2025-06"
      else toStr "2025-06"
    else toStr "2025-06"

/-- The Date-to-Period Resolver as worded by the specification and claim C2:
blank input falls back to `2025-06`; a string containing `/` is resolved by
the three sub-format rules; a string containing `-` (but no `/`) takes the
first token as year and the second as month; a candidate is accepted only
when `2020 ≤ year ≤ 2030` and `1 ≤ month ≤ 12` and then formatted as
zero-padded `YYYY-MM`; every other case yields `2025-06`.  (Unlike the
source, no `len(parts) >= 2` guard appears: the claim derives the period
from the sub-format rules directly.) -/
def resolvePeriodSpec (raw : Str) : Str :=
  if pyStrip raw = [] then toStr "2025-06"
  else
    let s := pyStrip raw
    let cand : Option (Int × Int) :=
      if hasSub s (toStr "/") then slashYM (splitChar '/' s)
      else if hasSub s (toStr "-") then dashYM (splitChar '-' s)
      else Option.none
    match validYM cand with
    | some r => r
    | Option.none => toStr "2025-06"

theorem splitChar_ne_nil (sep : Char) (s : Str) : splitChar sep s ≠ [] := by
  cases s with
  | nil => simp [splitChar]
  | cons c rest =>
    unfold splitChar
    by_cases h : c = sep
    · simp [h]
    · simp only [if_neg h]
      cases splitChar sep rest <;> simp

theorem splitChar_len_two (sep : Char) (s : Str) (h : sep ∈ s) :
    2 ≤ (splitChar sep s).length := by
  induction s with
  | nil => simp at h
  | cons c rest ih =>
    unfold splitChar
    by_cases hc : c = sep
    · simp only [if_pos hc, List.length_cons]
      have := List.length_pos.mpr (splitChar_ne_nil sep rest)
      omega
    · have hmem : sep ∈ rest := by
        rcases List.mem_cons.mp h with h1 | h1
        · exact absurd h1.symm hc
        · exact h1
      have h2 := ih hmem
      simp only [if_neg hc]
      cases hsp : splitChar sep rest with
      | nil => exact absurd hsp (splitChar_ne_nil sep rest)
      | cons hd tl =>
        rw [hsp] at h2
        simpa using h2

theorem hasSub_singleton (c : Char) (s : Str) :
    hasSub s [c] = true ↔ c ∈ s := by
  induction s with
  | nil => simp [hasSub, List.isEmpty]
  | cons x rest ih =>
    simp only [hasSub, strHasPre, Bool.or_eq_true, Bool.and_eq_true, beq_iff_eq,
      List.mem_cons]
    constructor
    · rintro (⟨h1, _⟩ | h1)
      · exact Or.inl h1
      · exact Or.inr (ih.mp h1)
    · rintro (h1 | h1)
      · exact Or.inl ⟨h1, trivial⟩
      · exact Or.inr (ih.mpr h1)

/-- C2: the Date-to-Period Resolver never raises (it is a total function)
and returns exactly what the specification's three-rule algorithm with the
2020-2030 / 1-12 validation and the `2025-06` fallback prescribes, and in
particular it maps `"2025/07"`, `"07/15/2025"`, `"25/07"`, `"2025-7"` to
`"2025-07"` and `"garbage"`, `""` to `"2025-06"`. -/
theorem C2_date_resolver :
    (∀ s : Str, extract_month_from_date s = resolvePeriodSpec s) ∧
    extract_month_from_date (toStr "2025/07") = toStr "2025-07" ∧
    extract_month_from_date (toStr "07/15/2025") = toStr "2025-07" ∧
    extract_month_from_date (toStr "25/07") = toStr "2025-07" ∧
    extract_month_from_date (toStr "2025-7") = toStr "2025-07" ∧
    extract_month_from_date (toStr "garbage") = toStr "2025-06" ∧
    extract_month_from_date (toStr "") = toStr "2025-06" := by
  refine ⟨?_, by decide, by decide, by decide, by decide, by decide, by decide⟩
  intro s
  unfold extract_month_from_date resolvePeriodSpec
  by_cases hb : s = [] ∨ pyStrip s = []
  · have hb2 : pyStrip s = [] := by
      rcases hb with h | h
      · rw [h]; rfl
      · exact h
    simp [hb, hb2]
  · have hb2 : ¬ pyStrip s = [] := fun h => hb (Or.inr h)
    simp only [if_neg hb, if_neg hb2]
    by_cases hs : hasSub (pyStrip s) (toStr "/") = true
    · have hmem : '/' ∈ pyStrip s := (hasSub_singleton '/' (pyStrip s)).mp hs
      have hlen := splitChar_len_two '/' (pyStrip s) hmem
      simp only [hs, if_true]
      rw [if_pos hlen]
    · simp only [hs, Bool.false_eq_true, if_false]
      by_cases hd : hasSub (pyStrip s) (toStr "-") = true
      · have hmem : '-' ∈ pyStrip s := (hasSub_singleton '-' (pyStrip s)).mp hd
        have hlen := splitChar_len_two '-' (pyStrip s) hmem
        simp only [hd, if_true]
        rw [if_pos hlen]
      · simp [hs, hd, validYM]

/-- The cleaning step of the Value Normalizer: strip `','` and the currency
glyphs `'¥'`, `'円'`, `'￥'`, then surrounding whitespace
(src/main.py line 230). -/
def cleanedOf (s : Str) : Str :=
  pyStrip (removeChar '￥' (removeChar '円' (removeChar '¥' (removeChar ',' s))))

/-- The sentinel tokens the Value Normalizer maps to 0 after cleaning
(src/main.py line 231). -/
def sentinelStrs : List Str :=
  [toStr "none", toStr "null", toStr "nan", toStr "-", ([] : Str)]

/-- The Value Normalizer as worded by claim C3: 0 for `None`, empty or
whitespace-only input; 0 for any input whose cleaned form (commas and the
currency glyphs `¥`, `￥`, `円` stripped) case-insensitively equals one of
`none`, `null`, `nan`, `-` or the empty string; otherwise the cleaned
string is parsed as a decimal number, any parse failure yielding 0. -/
def normalizeSpec (value : Val) : PyFloat :=
  match value with
  | Option.none => pfZero
  | some s =>
    if pyStrip s = [] then pfZero
    else if pyLower (cleanedOf s) ∈ sentinelStrs then pfZero
    else (pyFloatParse (cleanedOf s)).getD pfZero

/-- C3: the Value Normalizer never raises (it is a total function) and
behaves exactly as claim C3 states; in particular `normalize("¥1,234")`
is `1234`, `normalize("abc")` is `0`, and `None`, `""`, `"  "`, `"null"`,
`"NaN"` and `"-"` all normalize to `0`. -/
theorem C3_value_normalizer :
    (∀ v : Val, safe_float_convert v = normalizeSpec v) ∧
    safe_float_convert (some (toStr "¥1,234")) = .finite (mkRat 1234 1) ∧
    safe_float_convert (some (toStr "abc")) = pfZero ∧
    safe_float_convert Option.none = pfZero ∧
    safe_float_convert (some (toStr "")) = pfZero ∧
    safe_float_convert (some (toStr "  ")) = pfZero ∧
    safe_float_convert (some (toStr "null")) = pfZero ∧
    safe_float_convert (some (toStr "NaN")) = pfZero ∧
    safe_float_convert (some (toStr "-")) = pfZero := by
  refine ⟨?_, by decide, by decide, by decide, by decide, by decide, by decide,
    by decide, by decide⟩
  intro v
  cases v with
  | none => rfl
  | some s =>
    simp only [safe_float_convert, normalizeSpec]
    by_cases hb : pyStrip s = []
    · have hb1 : s = [] ∨ pyStrip s = [] := Or.inr hb
      rw [if_pos hb1, if_pos hb]
    · have hb2 : ¬ (s = [] ∨ pyStrip s = []) := by
        rintro (h | h)
        · exact hb (by rw [h]; rfl)
        · exact hb h
      rw [if_neg hb2, if_neg hb]
      simp only [cleanedOf, sentinelStrs]
      by_cases hm : pyLower (pyStrip (removeChar '￥' (removeChar '円'
          (removeChar '¥' (removeChar ',' s))))) ∈
          [toStr "none", toStr "null", toStr "nan", toStr "-", ([] : Str)]
      · rw [if_pos hm, if_pos hm]
      · rw [if_neg hm, if_neg hm]
        cases pyFloatParse (pyStrip (removeChar '￥' (removeChar '円'
          (removeChar '¥' (removeChar ',' s))))) <;> rfl

/-- C10: a non-empty input on which the Value Normalizer returns a
non-finite value instead of 0: `"inf"`, `"infinity"` and `"-inf"` survive
the sentinel-token check (which lists only `none`/`null`/`nan`/`-`/empty)
and are parsed by `float()` into IEEE infinities. -/
theorem C10_infinity_escapes :
    safe_float_convert (some (toStr "inf")) = .infty false ∧
    safe_float_convert (some (toStr "infinity")) = .infty false ∧
    safe_float_convert (some (toStr "-inf")) = .infty true ∧
    safe_float_convert (some (toStr "Infinity")) = .infty false ∧
    toStr "inf" ≠ [] := by
  refine ⟨by decide, by decide, by decide, by decide, by decide⟩

/-! ## Python float arithmetic and exceptions -/

/-- Addition of Python floats.  Finite + finite is exact rational addition
(double-rounding and overflow-to-infinity are not modelled; no verified
property depends on them). -/
def PyFloat.add : PyFloat → PyFloat → PyFloat
  | .nan, _ => .nan
  | _, .nan => .nan
  | .infty b1, .infty b2 => if b1 = b2 then .infty b1 else .nan
  | .infty b, .finite _ => .infty b
  | .finite _, .infty b => .infty b
  | .finite a, .finite b => .finite (a + b)

/-- Negation of a Python float. -/
def PyFloat.negF : PyFloat → PyFloat
  | .finite q => .finite (-q)
  | .infty b => .infty (!b)
  | .nan => .nan

/-- Python `abs` on floats. -/
def PyFloat.absF : PyFloat → PyFloat
  | .finite q => .finite |q|
  | .infty _ => .infty false
  | .nan => .nan

/-- Python `x < 0` on floats (`nan < 0` is `False`). -/
def PyFloat.ltZero : PyFloat → Bool
  | .finite q => q < 0
  | .infty b => b
  | .nan => false

/-- Python `x > 0` on floats (`nan > 0` is `False`). -/
def PyFloat.gtZero : PyFloat → Bool
  | .finite q => 0 < q
  | .infty b => !b
  | .nan => false

/-- The Python exceptions this model distinguishes. -/
inductive PyErr where
  | typeError
  | attrError
  | valueError
  | overflowError
deriving DecidableEq

/-- Truncation toward zero of a rational, as Python `int(float)` rounds. -/
def ratTrunc (q : ℚ) : ℤ := if 0 ≤ q then Rat.floor q else -Rat.floor (-q)

/-- Python `int(x)` on a float: truncation toward zero; `OverflowError` on
an infinity, `ValueError` on `nan`. -/
def pyIntOfFloat : PyFloat → Except PyErr Int
  | .finite q => .ok (ratTrunc q)
  | .infty _ => .error .overflowError
  | .nan => .error .valueError

/-! ## Dictionary primitives

Python `dict`s preserve insertion order; they are modelled as ordered
association lists with pairwise-distinct keys at every call site. -/

/-- `d[k]` lookup. -/
def dLookup {α : Type} (d : List (Str × α)) (k : Str) : Option α :=
  (d.find? (fun p => p.1 == k)).map (fun p => p.2)

/-- `k in d`. -/
def dHas {α : Type} (d : List (Str × α)) (k : Str) : Bool :=
  (dLookup d k).isSome

/-- `d.get(k, dflt)`. -/
def dGetD {α : Type} (d : List (Str × α)) (k : Str) (dflt : α) : α :=
  (dLookup d k).getD dflt

/-- `d[k] = v`: update in place when present, else append (Python dicts
keep the original position of an updated key). -/
def dSet {α : Type} (d : List (Str × α)) (k : Str) (v : α) : List (Str × α) :=
  if dHas d k then d.map (fun p => if p.1 == k then (p.1, v) else p)
  else d ++ [(k, v)]

/-- Apply `f` to the value stored at `k` (used where the source mutates an
entry that is guaranteed present). -/
def dMapAt {α : Type} (d : List (Str × α)) (k : Str) (f : α → α) : List (Str × α) :=
  d.map (fun p => if p.1 == k then (p.1, f p.2) else p)

/-- `d[k] += v` on float dictionaries.  Every call site updates a key the
month initializer has already created, so Python's `KeyError` cannot occur. -/
def dAddF (d : List (Str × PyFloat)) (k : Str) (v : PyFloat) : List (Str × PyFloat) :=
  dMapAt d k (fun x => x.add v)

/-- `d[k] -= v` on float dictionaries. -/
def dSubF (d : List (Str × PyFloat)) (k : Str) (v : PyFloat) : List (Str × PyFloat) :=
  dMapAt d k (fun x => x.add v.negF)

/-- A month's bucket dictionary during accumulation (float values). -/
abbrev DictF := List (Str × PyFloat)

/-- A month's bucket dictionary after the final `int()` conversion. -/
abbrev DictZ := List (Str × Int)

/-- A classifier's period-keyed aggregate during accumulation. -/
abbrev ResultsF := List (Str × DictF)

/-- A classifier's final period-keyed aggregate. -/
abbrev ResultsZ := List (Str × DictZ)

/-- The final `int()` conversion over one month's buckets
(`for key in results[month]: results[month][key] = int(...)`). -/
def dIntify (d : DictF) : Except PyErr DictZ :=
  d.mapM (fun p => do
    let z ← pyIntOfFloat p.2
    pure (p.1, z))

/-- The final `int()` conversion over the whole aggregate.  It runs inside
the classifier's outer `try`, so an error here empties the whole result. -/
def resIntify (r : ResultsF) : Except PyErr ResultsZ :=
  r.mapM (fun p => do
    let d ← dIntify p.2
    pure (p.1, d))

/-- Strip the BOM artifact and whitespace from a column name
(`key.replace('﻿', '').replace('﻿', '').strip()`; both replaced
literals are U+FEFF). -/
def cleanKeyOf (k : Str) : Str := pyStrip (removeChar '﻿' k)

/-- A column name as a string; Python raises (`TypeError`/`AttributeError`)
when string operations hit a `None` key. -/
def keyStr : Key → Except PyErr Str
  | Option.none => .error .attrError
  | some s => .ok s

/-- `row.get(k, '')` rendered as a string for f-string interpolation. -/
def rowGetStr (row : Row) (k : Str) : Str :=
  match (row.find? (fun p => p.1 == some k)).map (fun p => p.2) with
  | some v => pyValStr v
  | Option.none => []

/-! ## Ledger-style classifier: `process_makad_data` (src/main.py 285-348) -/

/-- Revenue bucket name for the account variant. -/
def makadAmazonKey (account_type : Str) : Str :=
  if account_type == toStr "a_m" then toStr "Amazon" else toStr "Amazon2"

/-- Fee bucket name for the account variant. -/
def makadFeeKey (account_type : Str) : Str :=
  if account_type == toStr "a_m" then toStr "プラットフォーム手数料_Amazon"
  else toStr "プラットフォーム手数料_Amazon2"

/-- The month entry created on first touch (src/main.py 303-314). -/
def makadInit (account_type : Str) : DictF :=
  [(makadAmazonKey account_type, pfZero),
   (toStr "メルカリShops", pfZero),
   (makadFeeKey account_type, pfZero),
   (toStr "プラットフォーム手数料_メルカリ", pfZero),
   (toStr "運送費（送料）", pfZero),
   (toStr "売上総利益", pfZero),
   (toStr "売上高合計", pfZero)]

/-- The date-column search (src/main.py 292-296): first column whose name
contains `'日'` or (lower-cased) `'date'`.  A `None` key raises `TypeError`
(`'日' in None`), and no `try` guards this loop. -/
def makadFindDate : Row → Except PyErr Val
  | [] => .ok Option.none
  | (k, v) :: rest =>
    match k with
    | Option.none => .error .typeError
    | some key =>
      if hasSub key (toStr "日") || hasSub (pyLower key) (toStr "date") then .ok v
      else makadFindDate rest

/-- One column of the makad per-row loop (src/main.py 319-339).  The loop
body sits in a `try ... except: continue`, so any error (including a `None`
key) just skips the column; the translation is therefore total. -/
def makadColStep (amazonKey feeKey : Str) (md : DictF) (kv : Key × Val) : DictF :=
  match kv.1 with
  | Option.none => md
  | some key =>
    let num := safe_float_convert kv.2
    if hasSub key (toStr "販売価格") then
      dAddF (dAddF md amazonKey num) (toStr "売上高合計") num
    else if hasSub key (toStr "送料") then
      dAddF (dAddF (dAddF md amazonKey num) (toStr "運送費（送料）") num) (toStr "売上高合計") num
    else if hasSub key (toStr "ポイント") || hasSub key (toStr "割引") then
      dSubF (dSubF md amazonKey num) (toStr "売上高合計") num
    else if hasSub key (toStr "手数料") && hasSub key (toStr "Amazon") then
      dAddF md feeKey num
    else if hasSub key (toStr "利益") || hasSub key (toStr "粗利") then
      dAddF md (toStr "売上総利益") num
    else md

/-- One makad row (src/main.py 290-339).  There is no per-row `try`, so an
error escaping the date search propagates to the function-level handler. -/
def makadRowE (account_type : Str) (results : ResultsF) (row : Row) :
    Except PyErr ResultsF := do
  let dv ← makadFindDate row
  if truthyV dv = false then pure results
  else
    let month := extract_month_from_date (pyValStr dv)
    let results1 := if dHas results month then results
      else dSet results month (makadInit account_type)
    pure (dMapAt results1 month (fun md =>
      row.foldl (makadColStep (makadAmazonKey account_type) (makadFeeKey account_type)) md))

/-- `process_makad_data` (src/main.py 285-348): rows folded without a
per-row handler, then the `int()` pass; the function-level
`except Exception: return {}` empties the aggregate on any error. -/
def process_makad_data (data : List Row) (account_type : Str) : ResultsZ :=
  match (data.foldlM (makadRowE account_type) []) >>= resIntify with
  | .ok r => r
  | .error _ => []

/-! ## Transaction/expense classifier: `process_expense_data_improved`
(src/process_expense_ad.py 73-170) -/

/-- Account suffix (src/process_expense_ad.py 109, 119). -/
def suffixOf (account_type : Str) : Str :=
  if account_type == toStr "a_m" then toStr "A-M" else toStr "O-AA"

/-- The six bucket names the expense classifier declares for an account
variant (src/process_expense_ad.py 110-117). -/
def expenseKeys (suffix : Str) : List Str :=
  [toStr "Amazon手数料_" ++ suffix,
   toStr "FBA手数料_" ++ suffix,
   toStr "配送料_" ++ suffix,
   toStr "ポイント費用_" ++ suffix,
   toStr "その他経費_" ++ suffix,
   toStr "経費合計_" ++ suffix]

/-- The month entry created on first touch, all buckets zero. -/
def expenseInit (suffix : Str) : DictF :=
  (expenseKeys suffix).map (fun k => (k, pfZero))

/-- Date-column keywords (src/process_expense_ad.py 98). -/
def expenseDateTerms : List Str :=
  [toStr "日付", toStr "時間", toStr "date", toStr "Date", toStr "Time"]

/-- The expense date search (src/process_expense_ad.py 95-101): first
column whose cleaned name contains a date keyword and whose value is
truthy.  A `None` key raises `AttributeError` inside this per-row-guarded
loop. -/
def expenseFindDate : Row → Except PyErr Val
  | [] => .ok Option.none
  | (k, v) :: rest => do
    let key ← keyStr k
    if anyTerm expenseDateTerms (cleanKeyOf key) then
      if truthyV v then pure v else expenseFindDate rest
    else expenseFindDate rest

/-- Keyword vocabularies of the expense classifier
(src/process_expense_ad.py 139-146). -/
def fbaTerms : List Str :=
  [toStr "fba", toStr "フルフィルメント", toStr "在庫", toStr "保管", toStr "出荷"]

/-- Commission keywords. -/
def commTerms : List Str :=
  [toStr "成約", toStr "リファーラル", toStr "販売手数料", toStr "commission"]

/-- Shipping keywords. -/
def shipTerms : List Str :=
  [toStr "配送", toStr "shipping", toStr "送料", toStr "発送"]

/-- Point keywords. -/
def pointTerms : List Str :=
  [toStr "ポイント", toStr "point"]

/-- The combined text used for classification
(src/process_expense_ad.py 134-136):
`f"{clean_key} {transaction_type} {description}".lower()`. -/
def combinedOf (row : Row) (cleanKey : Str) : Str :=
  pyLower (cleanKey ++ ' ' :: rowGetStr row (toStr "トランザクションの種類")
    ++ ' ' :: rowGetStr row (toStr "商品の説明"))

/-- The five expense categories. -/
inductive ExpCat where
  | fba
  | commission
  | shipping
  | point
  | other
deriving DecidableEq

/-- The first-match-wins category decision of the `if/elif` chain
(src/process_expense_ad.py 139-148). -/
def classifyExpense (combined : Str) : ExpCat :=
  if anyTerm fbaTerms combined then .fba
  else if anyTerm commTerms combined then .commission
  else if anyTerm shipTerms combined then .shipping
  else if anyTerm pointTerms combined then .point
  else .other

/-- Bucket name of each category for an account suffix. -/
def catKey (suffix : Str) : ExpCat → Str
  | .fba => toStr "FBA手数料_" ++ suffix
  | .commission => toStr "Amazon手数料_" ++ suffix
  | .shipping => toStr "配送料_" ++ suffix
  | .point => toStr "ポイント費用_" ++ suffix
  | .other => toStr "その他経費_" ++ suffix

/-- One column of the expense per-row loop
(src/process_expense_ad.py 122-154).  A `None` key (after the truthiness
check) raises `AttributeError`, which only the per-ROW handler catches. -/
def expenseColStep (suffix : Str) (row : Row) (md : DictF) (kv : Key × Val) :
    Except PyErr DictF := do
  if truthyV kv.2 = false then pure md
  else
    let key ← keyStr kv.1
    let ck := cleanKeyOf key
    let num := safe_float_convert kv.2
    if num.ltZero then
      let a := num.absF
      let combined := combinedOf row ck
      let tot := toStr "経費合計_" ++ suffix
      if anyTerm fbaTerms combined then
        pure (dAddF (dAddF md (toStr "FBA手数料_" ++ suffix) a) tot a)
      else if anyTerm commTerms combined then
        pure (dAddF (dAddF md (toStr "Amazon手数料_" ++ suffix) a) tot a)
      else if anyTerm shipTerms combined then
        pure (dAddF (dAddF md (toStr "配送料_" ++ suffix) a) tot a)
      else if anyTerm pointTerms combined then
        pure (dAddF (dAddF md (toStr "ポイント費用_" ++ suffix) a) tot a)
      else
        pure (dAddF (dAddF md (toStr "その他経費_" ++ suffix) a) tot a)
    else pure md

/-- The expense column loop with Python's in-place mutation semantics: an
error aborts the loop but keeps the updates already applied (the per-row
`except` then swallows the error). -/
def expenseColsGo (suffix : Str) (row : Row) (md : DictF) :
    List (Key × Val) → DictF × Option PyErr
  | [] => (md, Option.none)
  | kv :: rest =>
    match expenseColStep suffix row md kv with
    | .ok md2 => expenseColsGo suffix row md2 rest
    | .error e => (md, some e)

/-- One expense row under the per-row `try/except: continue`
(src/process_expense_ad.py 92-158): an error during the date search skips
the row entirely; an error inside the column loop keeps the partial
updates (the dicts are mutated in place) and moves to the next row. -/
def expenseRowStep (account_type : Str) (results : ResultsF) (row : Row) : ResultsF :=
  match expenseFindDate row with
  | .error _ => results
  | .ok dv =>
    if truthyV dv = false then results
    else
      let month := extract_month_from_date (pyValStr dv)
      let suffix := suffixOf account_type
      let results1 := if dHas results month then results
        else dSet results month (expenseInit suffix)
      let md0 := dGetD results1 month []
      let out := expenseColsGo suffix row md0 row
      dSet results1 month out.1

/-- `process_expense_data_improved` (src/process_expense_ad.py 73-170):
per-row guarded fold, then the `int()` pass; the function-level
`except Exception: return {}` empties the aggregate on any error. -/
def process_expense_data_improved (data : List Row) (account_type : Str) : ResultsZ :=
  match resIntify (data.foldl (expenseRowStep account_type) []) with
  | .ok r => r
  | .error _ => []

/-! ## Advertising-spend classifier: `process_ad_data_improved`
(src/process_expense_ad.py 172-270) -/

/-- The two bucket names the ad classifier declares
(src/process_expense_ad.py 227-230). -/
def adKeys (suffix : Str) : List Str :=
  [toStr "スポンサープロダクト広告_" ++ suffix, toStr "広告費合計_" ++ suffix]

/-- The month entry created on first touch. -/
def adInit (suffix : Str) : DictF := (adKeys suffix).map (fun k => (k, pfZero))

/-- Date-column keywords (src/process_expense_ad.py 203). -/
def adDateTerms : List Str :=
  [toStr "日付", toStr "開始", toStr "終了", toStr "date", toStr "Date",
   toStr "Start", toStr "End"]

/-- The primary ad date search (src/process_expense_ad.py 200-206), same
shape as the expense one. -/
def adFindDate : Row → Except PyErr Val
  | [] => .ok Option.none
  | (k, v) :: rest => do
    let key ← keyStr k
    if anyTerm adDateTerms (cleanKeyOf key) then
      if truthyV v then pure v else adFindDate rest
    else adFindDate rest

/-- The fallback date search over values (src/process_expense_ad.py
208-218): first truthy value containing `/` or `-` that does not resolve
to the fallback period. -/
def adFindDateFallback (row : Row) : Val :=
  match row.find? (fun kv =>
    truthyV kv.2 &&
    (hasSub (pyValStr kv.2) (toStr "/") || hasSub (pyValStr kv.2) (toStr "-")) &&
    (extract_month_from_date (pyValStr kv.2) != toStr "2025-06")) with
  | some kv => kv.2
  | Option.none => Option.none

/-- Spend-column keywords (src/process_expense_ad.py 245). -/
def adIncludeTerms : List Str :=
  [toStr "支出", toStr "Spend", toStr "費用", toStr "Cost", toStr "広告費", toStr "Ad"]

/-- Excluded-column keywords (src/process_expense_ad.py 247). -/
def adSkipTerms : List Str :=
  [toStr "日付", toStr "Date", toStr "率", toStr "Rate", toStr "%", toStr "ID",
   toStr "インプレッション", toStr "クリック数", toStr "売上"]

/-- The ad column loop (src/process_expense_ad.py 235-254) with its
`ad_spend_found` flag; once a spend value is accepted every later column
is skipped before any key operation. -/
def adColsGo (sponKey totKey : Str) (md : DictF) (found : Bool) :
    List (Key × Val) → DictF × Option PyErr
  | [] => (md, Option.none)
  | (k, v) :: rest =>
    if !truthyV v || found then adColsGo sponKey totKey md found rest
    else
      match k with
      | Option.none => (md, some .attrError)
      | some key =>
        let ck := cleanKeyOf key
        let num := safe_float_convert v
        if num.gtZero && anyTerm adIncludeTerms ck && !(anyTerm adSkipTerms ck) then
          adColsGo sponKey totKey (dAddF (dAddF md sponKey num) totKey num) true rest
        else adColsGo sponKey totKey md found rest

/-- One ad row under the per-row `try/except: continue`
(src/process_expense_ad.py 197-258). -/
def adRowStep (account_type : Str) (results : ResultsF) (row : Row) : ResultsF :=
  match adFindDate row with
  | .error _ => results
  | .ok dv0 =>
    let dv := if truthyV dv0 then dv0 else adFindDateFallback row
    if truthyV dv = false then results
    else
      let month := extract_month_from_date (pyValStr dv)
      let suffix := suffixOf account_type
      let results1 := if dHas results month then results
        else dSet results month (adInit suffix)
      let md0 := dGetD results1 month []
      let out := adColsGo (toStr "スポンサープロダクト広告_" ++ suffix)
        (toStr "広告費合計_" ++ suffix) md0 false row
      dSet results1 month out.1

/-- `process_ad_data_improved` (src/process_expense_ad.py 172-270). -/
def process_ad_data_improved (data : List Row) (account_type : Str) : ResultsZ :=
  match resIntify (data.foldl (adRowStep account_type) []) with
  | .ok r => r
  | .error _ => []

/-! ## Shop-sales classifier: `process_mercari_data` (src/main.py 350-407) -/

/-- The month entry created on first touch (src/main.py 368-382). -/
def mercariInit : DictF :=
  [(toStr "Amazon", pfZero),
   (toStr "Amazon2", pfZero),
   (toStr "メルカリShops", pfZero),
   (toStr "プラットフォーム手数料_Amazon", pfZero),
   (toStr "プラットフォーム手数料_Amazon2", pfZero),
   (toStr "プラットフォーム手数料_メルカリ", pfZero),
   (toStr "運送費（送料）", pfZero),
   (toStr "売上総利益", pfZero),
   (toStr "売上高合計", pfZero)]

/-- One column of the mercari per-row loop (src/main.py 384-398).  The
body sits in a `try ... except: continue`, so any error (including a
`None` key) just skips the column; the translation is therefore total. -/
def mercariColStep (md : DictF) (kv : Key × Val) : DictF :=
  match kv.1 with
  | Option.none => md
  | some key =>
    let num := safe_float_convert kv.2
    if hasSub key (toStr "売上") && hasSub key (toStr "税込") then
      dAddF (dAddF md (toStr "メルカリShops") num) (toStr "売上高合計") num
    else if hasSub key (toStr "販売手数料") && hasSub key (toStr "税込") then
      dAddF md (toStr "プラットフォーム手数料_メルカリ") num
    else if hasSub key (toStr "販売利益") || hasSub key (toStr "利益") then
      dAddF md (toStr "売上総利益") num
    else if hasSub key (toStr "送料") then
      dAddF md (toStr "運送費（送料）") num
    else md

/-- One mercari row (src/main.py 355-398).  The date-column search
(lines 358-361) is textually identical to the makad one (lines 292-296),
so `makadFindDate` is reused; there is no per-row `try`, so an error
escaping the date search propagates to the function-level handler. -/
def mercariRowE (results : ResultsF) (row : Row) : Except PyErr ResultsF := do
  let dv ← makadFindDate row
  if truthyV dv = false then pure results
  else
    let month := extract_month_from_date (pyValStr dv)
    let results1 := if dHas results month then results
      else dSet results month mercariInit
    pure (dMapAt results1 month (fun md => row.foldl mercariColStep md))

/-- `process_mercari_data` (src/main.py 350-407): rows folded without a
per-row handler, then the `int()` pass; the function-level
`except Exception: return {}` empties the aggregate on any error. -/
def process_mercari_data (data : List Row) : ResultsZ :=
  match (data.foldlM mercariRowE []) >>= resIntify with
  | .ok r => r
  | .error _ => []

/-! ## Multi-marketplace-route classifier: `process_hanro_data`
(src/main.py 409-472) -/

/-- The month entry created on first touch (src/main.py 428-441; the same
dict literal as the mercari classifier's). -/
def hanroInit : DictF :=
  [(toStr "Amazon", pfZero),
   (toStr "Amazon2", pfZero),
   (toStr "メルカリShops", pfZero),
   (toStr "プラットフォーム手数料_Amazon", pfZero),
   (toStr "プラットフォーム手数料_Amazon2", pfZero),
   (toStr "プラットフォーム手数料_メルカリ", pfZero),
   (toStr "運送費（送料）", pfZero),
   (toStr "売上総利益", pfZero),
   (toStr "売上高合計", pfZero)]

/-- The hanro date-column search (src/main.py 416-420): first column whose
name contains `'At'` or `'日'`.  A `None` key raises `TypeError`
(`'At' in None`), and no `try` guards this loop. -/
def hanroFindDate : Row → Except PyErr Val
  | [] => .ok Option.none
  | (k, v) :: rest =>
    match k with
    | Option.none => .error .typeError
    | some key =>
      if hasSub key (toStr "At") || hasSub key (toStr "日") then .ok v
      else hanroFindDate rest

/-- `row.get('mall', '').lower()` (src/main.py 444): the default `''`
lowers to `''`; a present key with value `None` raises `AttributeError`
(`None.lower()`), outside any per-row handler. -/
def hanroMall (row : Row) : Except PyErr Str :=
  match (row.find? (fun p => p.1 == some (toStr "mall"))).map (fun p => p.2) with
  | Option.none => .ok []
  | some v =>
    match v with
    | Option.none => .error .attrError
    | some s => .ok (pyLower s)

/-- One column of the hanro per-row loop (src/main.py 446-463), guarded by
the per-column `try ... except: continue` and therefore total. -/
def hanroColStep (account_type mall : Str) (md : DictF) (kv : Key × Val) : DictF :=
  match kv.1 with
  | Option.none => md
  | some key =>
    let num := safe_float_convert kv.2
    if hasSub key (toStr "netPrice") || hasSub key (toStr "価格") ||
        hasSub key (toStr "売上") then
      dAddF
        (if mall = toStr "mercari" then dAddF md (toStr "メルカリShops") num
         else dAddF md (makadAmazonKey account_type) num)
        (toStr "売上高合計") num
    else if hasSub key (toStr "profit") || hasSub key (toStr "利益") then
      dAddF md (toStr "売上総利益") num
    else if hasSub key (toStr "送料") || hasSub (pyLower key) (toStr "shipping") then
      dAddF md (toStr "運送費（送料）") num
    else md

/-- One hanro row (src/main.py 414-463): date search, month
initialization, then the `mall` lookup and the column loop; no per-row
`try`, so an error in the date search or the `mall` lookup propagates to
the function-level handler. -/
def hanroRowE (account_type : Str) (results : ResultsF) (row : Row) :
    Except PyErr ResultsF := do
  let dv ← hanroFindDate row
  if truthyV dv = false then pure results
  else
    let month := extract_month_from_date (pyValStr dv)
    let results1 := if dHas results month then results
      else dSet results month hanroInit
    let mall ← hanroMall row
    pure (dMapAt results1 month (fun md => row.foldl (hanroColStep account_type mall) md))

/-- `process_hanro_data` (src/main.py 409-472). -/
def process_hanro_data (data : List Row) (account_type : Str) : ResultsZ :=
  match (data.foldlM (hanroRowE account_type) []) >>= resIntify with
  | .ok r => r
  | .error _ => []

/-! ## Aggregate merger: `merge_monthly_data` (src/main.py 671-700) -/

/-- The nine spreadsheet buckets every merged month is initialized with
(src/main.py 679-692). -/
def mergeInit : DictZ :=
  [(toStr "Amazon", 0),
   (toStr "Amazon2", 0),
   (toStr "メルカリShops", 0),
   (toStr "プラットフォーム手数料_Amazon", 0),
   (toStr "プラットフォーム手数料_Amazon2", 0),
   (toStr "プラットフォーム手数料_メルカリ", 0),
   (toStr "運送費（送料）", 0),
   (toStr "売上総利益", 0),
   (toStr "売上高合計", 0)]

/-- `d[k] += v` / `d[k] = v` on integer dictionaries (src/main.py 694-698). -/
def dBucketMerge (d : DictZ) (k : Str) (v : Int) : DictZ :=
  if dHas d k then dMapAt d k (fun x => x + v) else d ++ [(k, v)]

/-- Merge one month of one source aggregate into the unified aggregate. -/
def mergeMonth (merged : ResultsZ) (month : Str) (data : DictZ) : ResultsZ :=
  let merged1 := if dHas merged month then merged else dSet merged month mergeInit
  data.foldl (fun m kv => dMapAt m month (fun md => dBucketMerge md kv.1 kv.2)) merged1

/-- `merge_monthly_data` (src/main.py 671-700). -/
def merge_monthly_data (all_results : List ResultsZ) : ResultsZ :=
  all_results.foldl (fun merged source =>
    source.foldl (fun m p => mergeMonth m p.1 p.2) merged) []

/-! ## Trend projector: `convert_to_spreadsheet_format` and
`calculate_change_percentage` (src/main.py 702-765) -/

/-- The rational 0 (spelled via `mkRat` so that concrete witnesses can be
evaluated by the kernel). -/
def ratZero : ℚ := mkRat 0 1

/-- The rational 100. -/
def rat100 : ℚ := mkRat 100 1

/-- `calculate_change_percentage` (src/main.py 757-765).  The
`math.isnan`/`math.isinf` guard of the source is vacuous here: with a
nonzero previous value, exact rational arithmetic always yields a finite
result. -/
def calculate_change_percentage (previous_value current_value : ℚ) : ℚ :=
  if previous_value = ratZero then
    (if ratZero < current_value then rat100 else ratZero)
  else (current_value - previous_value) / previous_value * rat100

/-- A rational from an integer bucket value. -/
def intQ (i : Int) : ℚ := mkRat i 1

/-- Python `f"{year}年{int(month)}月"` with fallback to the raw key
(src/main.py 708-713). -/
def monthDisplay (k : Str) : Str :=
  match splitChar '-' k with
  | [y, m] =>
    match pyInt m with
    | some mv => y ++ toStr "年" ++ intToStr mv ++ toStr "月"
    | Option.none => k
  | _ => k

/-- One Report Row (src/main.py 716-750).  Field names are ASCII stand-ins
for the source's Japanese display labels:
`yearMonthDisp` = 年月, `period` = 期間, `amazonAM` = Amazon（A-M）,
`amazon2OAA` = Amazon2（O-AA）, `mercari` = メルカリShops,
`feeAmazon`/`feeAmazon2`/`feeMercari` = プラットフォーム手数料_*,
`shipping` = 運送費（送料）, `grossProfit` = 売上総利益,
`totalRevenue` = 売上高合計, `salesChange` = 売上前月比,
`profitChange` = 利益前月比. -/
structure ReportRow where
  yearMonthDisp : Str
  period : Str
  amazonAM : Int
  amazon2OAA : Int
  mercari : Int
  feeAmazon : Int
  feeAmazon2 : Int
  feeMercari : Int
  shipping : Int
  grossProfit : Int
  totalRevenue : Int
  salesChange : ℚ
  profitChange : ℚ
deriving DecidableEq

/-- Build the row for one period before the change fields are filled in
(the first row keeps the zero changes, src/main.py 748-750). -/
def mkRow (k : Str) (d : DictZ) : ReportRow :=
  { yearMonthDisp := monthDisplay k
    period := k
    amazonAM := dGetD d (toStr "Amazon") 0
    amazon2OAA := dGetD d (toStr "Amazon2") 0
    mercari := dGetD d (toStr "メルカリShops") 0
    feeAmazon := dGetD d (toStr "プラットフォーム手数料_Amazon") 0
    feeAmazon2 := dGetD d (toStr "プラットフォーム手数料_Amazon2") 0
    feeMercari := dGetD d (toStr "プラットフォーム手数料_メルカリ") 0
    shipping := dGetD d (toStr "運送費（送料）") 0
    grossProfit := dGetD d (toStr "売上総利益") 0
    totalRevenue := dGetD d (toStr "売上高合計") 0
    salesChange := ratZero
    profitChange := ratZero }

/-- The row loop of `convert_to_spreadsheet_format` (src/main.py 707-753),
threading `previous_row`. -/
def convertGo : List (Str × DictZ) → Option ReportRow → List ReportRow
  | [], _ => []
  | (k, d) :: rest, prev =>
    let r0 := mkRow k d
    let r :=
      match prev with
      | some p =>
        { r0 with
          salesChange := calculate_change_percentage (intQ p.totalRevenue) (intQ r0.totalRevenue)
          profitChange := calculate_change_percentage (intQ p.grossProfit) (intQ r0.grossProfit) }
      | Option.none => r0
    r :: convertGo rest (some r)

/-- Python `sorted(merged_results.items())`: the keys of a dict are
pairwise distinct, so sorting the pairs is sorting by key (a stable
insertion sort, like Python's sort). -/
def sortByKey (r : ResultsZ) : List (Str × DictZ) :=
  List.insertionSort (fun a b => a.1 ≤ b.1) r

/-- `convert_to_spreadsheet_format` (src/main.py 702-755). -/
def convert_to_spreadsheet_format (merged_results : ResultsZ) : List ReportRow :=
  convertGo (sortByKey merged_results) Option.none

/-! ## Association-list lemmas -/

theorem dLookup_nil {α : Type} (k : Str) : dLookup ([] : List (Str × α)) k = Option.none := rfl

theorem dLookup_cons {α : Type} (p : Str × α) (d : List (Str × α)) (k : Str) :
    dLookup (p :: d) k = if p.1 = k then some p.2 else dLookup d k := by
  simp only [dLookup, List.find?_cons]
  by_cases h : p.1 = k
  · simp [h]
  · simp [h, beq_eq_false_iff_ne.mpr h]

theorem dLookup_append {α : Type} (d1 d2 : List (Str × α)) (k : Str) :
    dLookup (d1 ++ d2) k =
      match dLookup d1 k with
      | some v => some v
      | Option.none => dLookup d2 k := by
  induction d1 with
  | nil => simp [dLookup_nil]
  | cons p d1 ih =>
    rw [List.cons_append, dLookup_cons, dLookup_cons]
    by_cases h : p.1 = k
    · simp [h]
    · simp [h, ih]

theorem dLookup_dMapAt_self {α : Type} (d : List (Str × α)) (k : Str) (f : α → α) :
    dLookup (dMapAt d k f) k = (dLookup d k).map f := by
  induction d with
  | nil => rfl
  | cons p d ih =>
    simp only [dMapAt, List.map_cons]
    by_cases h : p.1 = k
    · simp [dLookup_cons, h]
    · simp only [beq_eq_false_iff_ne.mpr h, Bool.false_eq_true, if_false]
      rw [dLookup_cons, dLookup_cons, if_neg h, if_neg h]
      exact ih

theorem dLookup_dMapAt_ne {α : Type} (d : List (Str × α)) (k k' : Str) (f : α → α)
    (h : k' ≠ k) : dLookup (dMapAt d k f) k' = dLookup d k' := by
  induction d with
  | nil => rfl
  | cons p d ih =>
    simp only [dMapAt, List.map_cons]
    by_cases hp : p.1 = k
    · rw [beq_iff_eq.mpr hp, if_pos rfl, dLookup_cons, dLookup_cons]
      simp only [hp]
      rw [if_neg (fun hh => h hh.symm), if_neg (fun hh => h hh.symm)]
      exact ih
    · rw [beq_eq_false_iff_ne.mpr hp]
      simp only [Bool.false_eq_true, if_false]
      rw [dLookup_cons, dLookup_cons]
      by_cases hk : p.1 = k'
      · simp [hk]
      · rw [if_neg hk, if_neg hk]; exact ih

theorem dMapAt_keys {α : Type} (d : List (Str × α)) (k : Str) (f : α → α) :
    (dMapAt d k f).map Prod.fst = d.map Prod.fst := by
  simp only [dMapAt, List.map_map]
  refine List.map_congr_left (fun p _ => ?_)
  by_cases h : p.1 = k <;> simp [h]

theorem dHas_cons {α : Type} (p : Str × α) (d : List (Str × α)) (k : Str) :
    dHas (p :: d) k = (decide (p.1 = k) || dHas d k) := by
  simp only [dHas, dLookup_cons]
  by_cases h : p.1 = k <;> simp [h]

theorem dMapAt_not_has {α : Type} (d : List (Str × α)) (k : Str) (f : α → α)
    (h : dHas d k = false) : dMapAt d k f = d := by
  induction d with
  | nil => rfl
  | cons p d ih =>
    rw [dHas_cons, Bool.or_eq_false_iff] at h
    have h1 : ¬ p.1 = k := by
      intro hk
      rw [decide_eq_true hk] at h
      exact absurd h.1 (by simp)
    have h2 := ih h.2
    simp only [dMapAt, List.map_cons, beq_eq_false_iff_ne.mpr h1, Bool.false_eq_true,
      if_false]
    simp only [dMapAt] at h2
    rw [h2]

theorem dHas_append {α : Type} (d1 d2 : List (Str × α)) (k : Str) :
    dHas (d1 ++ d2) k = (dHas d1 k || dHas d2 k) := by
  simp only [dHas, dLookup_append]
  cases dLookup d1 k <;> simp

/-! ## C6: per-row error containment -/

theorem foldlM_error_general (step : ResultsF → Row → Except PyErr ResultsF)
    (bad : Row) (post : List Row)
    (hbad : ∀ s : ResultsF, ∃ e, step s bad = .error e) :
    ∀ (pre : List Row) (s : ResultsF),
      ∃ e, (pre ++ bad :: post).foldlM step s = .error e := by
  intro pre
  induction pre with
  | nil =>
    intro s
    obtain ⟨e, he⟩ := hbad s
    refine ⟨e, ?_⟩
    simp only [List.nil_append, List.foldlM_cons, he]
    rfl
  | cons r pre ih =>
    intro s
    simp only [List.cons_append, List.foldlM_cons]
    cases hr : step s r with
    | error e => exact ⟨e, rfl⟩
    | ok s2 =>
      obtain ⟨e, he⟩ := ih s2
      exact ⟨e, he⟩

/-- C6 counterexample: in `process_makad_data` there is no per-row handler,
so a single malformed row (here: a row whose only column key is Python
`None`, as `csv.DictReader` produces for overflow fields) does not merely
lose that row — it empties the whole aggregate, discarding the intact
first row, while the same first row alone produces a non-empty aggregate. -/
theorem C6_counterexample :
    process_makad_data
      [[(some (toStr "日付"), some (toStr "2025/07/01")),
        (some (toStr "販売価格"), some (toStr "1000"))],
       [(Option.none, some (toStr "1"))]] (toStr "a_m") = [] ∧
    process_makad_data
      [[(some (toStr "日付"), some (toStr "2025/07/01")),
        (some (toStr "販売価格"), some (toStr "1000"))]] (toStr "a_m") ≠ [] := by
  constructor
  · with_unfolding_all decide
  · with_unfolding_all decide

/-- C6 (amended): per-row exception containment holds for the
transaction/expense and advertising classifiers
(`process_expense_data_improved` and `process_ad_data_improved` wrap each
row in `try/except: continue`, so a row whose processing raises — here,
during the date-column search — is skipped and every other row still
contributes), and a whole-source error yields an empty aggregate for that
source only; but it does NOT hold for the ledger-style classifiers:
`process_makad_data`, `process_mercari_data` and `process_hanro_data` have
no per-row handler, so the same failing row aborts the entire source,
which degrades to an empty aggregate. -/
theorem C6_row_error_containment (account_type : Str) (pre post : List Row) (bad : Row)
    (h1 : ∃ e, expenseFindDate bad = Except.error e)
    (h2 : ∃ e, adFindDate bad = Except.error e)
    (h3 : ∃ e, makadFindDate bad = Except.error e)
    (h4 : ∃ e, hanroFindDate bad = Except.error e) :
    process_expense_data_improved (pre ++ bad :: post) account_type =
      process_expense_data_improved (pre ++ post) account_type ∧
    process_ad_data_improved (pre ++ bad :: post) account_type =
      process_ad_data_improved (pre ++ post) account_type ∧
    process_makad_data (pre ++ bad :: post) account_type = [] ∧
    process_mercari_data (pre ++ bad :: post) = [] ∧
    process_hanro_data (pre ++ bad :: post) account_type = [] := by
  refine ⟨?_, ?_, ?_, ?_, ?_⟩
  · obtain ⟨e, he⟩ := h1
    have hskip : ∀ s : ResultsF, expenseRowStep account_type s bad = s := by
      intro s
      simp [expenseRowStep, he]
    unfold process_expense_data_improved
    rw [List.foldl_append, List.foldl_cons, hskip, ← List.foldl_append]
  · obtain ⟨e, he⟩ := h2
    have hskip : ∀ s : ResultsF, adRowStep account_type s bad = s := by
      intro s
      simp [adRowStep, he]
    unfold process_ad_data_improved
    rw [List.foldl_append, List.foldl_cons, hskip, ← List.foldl_append]
  · have hbad : ∀ s : ResultsF, ∃ e, makadRowE account_type s bad = .error e := by
      intro s
      obtain ⟨e, he⟩ := h3
      refine ⟨e, ?_⟩
      unfold makadRowE
      rw [he]
      rfl
    obtain ⟨e, he⟩ := foldlM_error_general (makadRowE account_type) bad post hbad pre []
    unfold process_makad_data
    rw [he]
    rfl
  · have hbad : ∀ s : ResultsF, ∃ e, mercariRowE s bad = .error e := by
      intro s
      obtain ⟨e, he⟩ := h3
      refine ⟨e, ?_⟩
      unfold mercariRowE
      rw [he]
      rfl
    obtain ⟨e, he⟩ := foldlM_error_general mercariRowE bad post hbad pre []
    unfold process_mercari_data
    rw [he]
    rfl
  · have hbad : ∀ s : ResultsF, ∃ e, hanroRowE account_type s bad = .error e := by
      intro s
      obtain ⟨e, he⟩ := h4
      refine ⟨e, ?_⟩
      unfold hanroRowE
      rw [he]
      rfl
    obtain ⟨e, he⟩ := foldlM_error_general (hanroRowE account_type) bad post hbad pre []
    unfold process_hanro_data
    rw [he]
    rfl

/-- Witness for C6: the failing row `{None: "1"}` is skipped by the expense
and ad classifiers but empties the makad, mercari and hanro aggregates. -/
theorem C6_row_error_containment_witness :
    process_expense_data_improved
      ([[(some (toStr "日付"), some (toStr "2025/07/15")),
         (some (toStr "合計"), some (toStr "-100"))]] ++
       [(Option.none, some (toStr "1"))] ::
       [[(some (toStr "日付"), some (toStr "2025/08/15")),
         (some (toStr "合計"), some (toStr "-200"))]]) (toStr "a_m") =
      process_expense_data_improved
        ([[(some (toStr "日付"), some (toStr "2025/07/15")),
           (some (toStr "合計"), some (toStr "-100"))]] ++
         [[(some (toStr "日付"), some (toStr "2025/08/15")),
           (some (toStr "合計"), some (toStr "-200"))]]) (toStr "a_m") ∧
    process_ad_data_improved
      ([[(some (toStr "日付"), some (toStr "2025/07/15")),
         (some (toStr "合計"), some (toStr "-100"))]] ++
       [(Option.none, some (toStr "1"))] ::
       [[(some (toStr "日付"), some (toStr "2025/08/15")),
         (some (toStr "合計"), some (toStr "-200"))]]) (toStr "a_m") =
      process_ad_data_improved
        ([[(some (toStr "日付"), some (toStr "2025/07/15")),
           (some (toStr "合計"), some (toStr "-100"))]] ++
         [[(some (toStr "日付"), some (toStr "2025/08/15")),
           (some (toStr "合計"), some (toStr "-200"))]]) (toStr "a_m") ∧
    process_makad_data
      ([[(some (toStr "日付"), some (toStr "2025/07/15")),
         (some (toStr "合計"), some (toStr "-100"))]] ++
       [(Option.none, some (toStr "1"))] ::
       [[(some (toStr "日付"), some (toStr "2025/08/15")),
         (some (toStr "合計"), some (toStr "-200"))]]) (toStr "a_m") = [] ∧
    process_mercari_data
      ([[(some (toStr "日付"), some (toStr "2025/07/15")),
         (some (toStr "合計"), some (toStr "-100"))]] ++
       [(Option.none, some (toStr "1"))] ::
       [[(some (toStr "日付"), some (toStr "2025/08/15")),
         (some (toStr "合計"), some (toStr "-200"))]]) = [] ∧
    process_hanro_data
      ([[(some (toStr "日付"), some (toStr "2025/07/15")),
         (some (toStr "合計"), some (toStr "-100"))]] ++
       [(Option.none, some (toStr "1"))] ::
       [[(some (toStr "日付"), some (toStr "2025/08/15")),
         (some (toStr "合計"), some (toStr "-200"))]]) (toStr "a_m") = [] :=
  C6_row_error_containment (toStr "a_m")
    [[(some (toStr "日付"), some (toStr "2025/07/15")),
      (some (toStr "合計"), some (toStr "-100"))]]
    [[(some (toStr "日付"), some (toStr "2025/08/15")),
      (some (toStr "合計"), some (toStr "-200"))]]
    [(Option.none, some (toStr "1"))]
    ⟨PyErr.attrError, rfl⟩ ⟨PyErr.attrError, rfl⟩
    ⟨PyErr.typeError, rfl⟩ ⟨PyErr.typeError, rfl⟩

/-! ## C7: merging a singleton list of aggregates -/

/-- Folding one month's buckets into a unified month dictionary
(src/main.py 694-698). -/
def mergeBuckets (data : DictZ) (s : DictZ) : DictZ :=
  data.foldl (fun md kv => dBucketMerge md kv.1 kv.2) s

theorem dMapAt_id {α : Type} (d : List (Str × α)) (k : Str) :
    dMapAt d k (fun x => x) = d := by
  unfold dMapAt
  have hp : ∀ p : Str × α, (if p.1 == k then (p.1, p.2) else p) = p := by
    intro p
    by_cases h : (p.1 == k) = true
    · rw [if_pos h]
    · rw [if_neg h]
  rw [List.map_congr_left (fun p _ => hp p)]
  exact List.map_id' d

theorem dMapAt_dMapAt {α : Type} (d : List (Str × α)) (k : Str) (f g : α → α) :
    dMapAt (dMapAt d k f) k g = dMapAt d k (fun x => g (f x)) := by
  unfold dMapAt
  rw [List.map_map]
  refine List.map_congr_left (fun p _ => ?_)
  by_cases h : p.1 = k <;> simp [h]

theorem mergeMonth_fold (month : Str) (data : DictZ) :
    ∀ m : ResultsZ,
      data.foldl (fun m kv => dMapAt m month (fun md => dBucketMerge md kv.1 kv.2)) m =
        dMapAt m month (fun md => mergeBuckets data md) := by
  induction data with
  | nil => intro m; exact (dMapAt_id m month).symm
  | cons kv data ih =>
    intro m
    rw [List.foldl_cons, ih, dMapAt_dMapAt]
    rfl

theorem dLookup_eq_none_of_not_key {α : Type} (d : List (Str × α)) (k : Str)
    (h : k ∉ d.map Prod.fst) : dLookup d k = Option.none := by
  induction d with
  | nil => rfl
  | cons p d ih =>
    rw [dLookup_cons, if_neg, ih]
    · intro hm; exact h (List.mem_cons.mpr (Or.inr hm))
    · intro he; exact h (List.mem_cons.mpr (Or.inl he.symm))

theorem dHas_single {α : Type} (k k' : Str) (v : α) :
    dHas [(k, v)] k' = decide (k = k') := by
  rw [dHas_cons]
  simp [dHas, dLookup_nil]

theorem mergeMonths_go :
    ∀ (A : ResultsZ) (m0 : ResultsZ),
      (∀ p ∈ A, dHas m0 p.1 = false) → (A.map Prod.fst).Nodup →
      A.foldl (fun m p => mergeMonth m p.1 p.2) m0 =
        m0 ++ A.map (fun p => (p.1, mergeBuckets p.2 mergeInit)) := by
  intro A
  induction A with
  | nil => intro m0 _ _; simp
  | cons q A ih =>
    intro m0 h0 hnd
    rw [List.foldl_cons]
    have hq : dHas m0 q.1 = false := h0 q (List.mem_cons_self q A)
    have hstep : mergeMonth m0 q.1 q.2 = m0 ++ [(q.1, mergeBuckets q.2 mergeInit)] := by
      unfold mergeMonth
      rw [if_neg (by rw [hq]; exact Bool.false_ne_true)]
      have hset : dSet m0 q.1 mergeInit = m0 ++ [(q.1, mergeInit)] := by
        unfold dSet
        rw [if_neg (by rw [hq]; exact Bool.false_ne_true)]
      rw [hset, mergeMonth_fold]
      unfold dMapAt
      rw [List.map_append]
      have h1 : m0.map (fun p => if p.1 == q.1 then (p.1, mergeBuckets q.2 p.2) else p) = m0 := by
        have := dMapAt_not_has m0 q.1 (fun md => mergeBuckets q.2 md) hq
        simpa [dMapAt] using this
      rw [h1]
      simp
    rw [hstep]
    have hnd2 : (A.map Prod.fst).Nodup := (List.nodup_cons.mp hnd).2
    have hq2 : q.1 ∉ A.map Prod.fst := by
      have := (List.nodup_cons.mp hnd).1
      simpa using this
    have h02 : ∀ p ∈ A, dHas (m0 ++ [(q.1, mergeBuckets q.2 mergeInit)]) p.1 = false := by
      intro p hp
      rw [dHas_append, h0 p (List.mem_cons.mpr (Or.inr hp)), dHas_single]
      have : q.1 ≠ p.1 := by
        intro he
        exact hq2 (he ▸ List.mem_map.mpr ⟨p, hp, rfl⟩)
      simp [this]
    rw [ih (m0 ++ [(q.1, mergeBuckets q.2 mergeInit)]) h02 hnd2]
    simp

theorem merge_singleton_eq (A : ResultsZ) (hm : (A.map Prod.fst).Nodup) :
    merge_monthly_data [A] = A.map (fun p => (p.1, mergeBuckets p.2 mergeInit)) := by
  unfold merge_monthly_data
  rw [List.foldl_cons, List.foldl_nil]
  have := mergeMonths_go A [] (fun p _ => rfl) hm
  simpa using this

theorem dBucketMerge_lookup_self (s : DictZ) (k : Str) (v : Int) :
    dLookup (dBucketMerge s k v) k = some (dGetD s k 0 + v) := by
  unfold dBucketMerge
  by_cases h : dHas s k = true
  · rw [if_pos h, dLookup_dMapAt_self]
    unfold dHas at h
    cases hl : dLookup s k with
    | none => rw [hl] at h; simp at h
    | some x => simp [dGetD, hl]
  · rw [if_neg h]
    have hnone : dLookup s k = Option.none := by
      unfold dHas at h
      cases hl : dLookup s k with
      | none => rfl
      | some x => rw [hl] at h; simp at h
    rw [dLookup_append, hnone, dLookup_cons]
    simp [dGetD, hnone]

theorem dBucketMerge_lookup_ne (s : DictZ) (k k' : Str) (v : Int) (h : k' ≠ k) :
    dLookup (dBucketMerge s k v) k' = dLookup s k' := by
  unfold dBucketMerge
  by_cases hh : dHas s k = true
  · rw [if_pos hh, dLookup_dMapAt_ne _ _ _ _ h]
  · rw [if_neg hh, dLookup_append]
    rw [dLookup_cons, if_neg (fun he => h he.symm), dLookup_nil]
    cases dLookup s k' <;> rfl

theorem mergeBuckets_lookup :
    ∀ (d : DictZ) (s : DictZ) (k : Str), (d.map Prod.fst).Nodup →
      dLookup (mergeBuckets d s) k =
        match dLookup d k with
        | some v => some (dGetD s k 0 + v)
        | Option.none => dLookup s k := by
  intro d
  induction d with
  | nil => intro s k _; rw [dLookup_nil]; rfl
  | cons q d ih =>
    intro s k hnd
    have hnd2 : (d.map Prod.fst).Nodup := (List.nodup_cons.mp hnd).2
    have hstep : mergeBuckets (q :: d) s = mergeBuckets d (dBucketMerge s q.1 q.2) := rfl
    rw [hstep, ih (dBucketMerge s q.1 q.2) k hnd2, dLookup_cons]
    by_cases hk : q.1 = k
    · have hq2 : q.1 ∉ d.map Prod.fst := by
        have := (List.nodup_cons.mp hnd).1
        simpa using this
      have hdn : dLookup d k = Option.none :=
        dLookup_eq_none_of_not_key d k (hk ▸ hq2)
      rw [hdn, if_pos hk, ← hk, dBucketMerge_lookup_self]
    · rw [if_neg hk]
      have hne : dLookup (dBucketMerge s q.1 q.2) k = dLookup s k :=
        dBucketMerge_lookup_ne s q.1 k q.2 (fun he => hk he.symm)
      cases dLookup d k with
      | none => exact hne
      | some v =>
        simp only [dGetD, hne]

theorem mergeInit_all_zero : ∀ p ∈ mergeInit, p.2 = 0 := by decide

theorem mergeInit_lookup (k : Str) :
    dLookup mergeInit k = if dHas mergeInit k then some (0 : Int) else Option.none := by
  cases hl : dLookup mergeInit k with
  | none =>
    rw [if_neg]
    rw [dHas, hl]
    exact Bool.false_ne_true
  | some v =>
    have hv : v = 0 := by
      unfold dLookup at hl
      rcases Option.map_eq_some'.mp hl with ⟨p, hf, hp2⟩
      have hmem := List.mem_of_find?_eq_some hf
      rw [← hp2]
      exact mergeInit_all_zero p hmem
    rw [hv, if_pos]
    rw [dHas, hl]
    rfl

theorem mergeInit_getD (k : Str) : dGetD mergeInit k 0 = 0 := by
  unfold dGetD
  rw [mergeInit_lookup k]
  by_cases h : dHas mergeInit k = true <;> simp [h]

theorem dLookup_mapped {α β : Type} :
    ∀ (A : List (Str × α)) (g : Str × α → β), (A.map Prod.fst).Nodup →
      ∀ p ∈ A, dLookup (A.map (fun q => (q.1, g q))) p.1 = some (g p) := by
  intro A
  induction A with
  | nil => intro g _ p hp; exact absurd hp (List.not_mem_nil p)
  | cons q A ih =>
    intro g hnd p hp
    rw [List.map_cons, dLookup_cons]
    rcases List.mem_cons.mp hp with hqe | hmem
    · rw [if_pos (by rw [hqe])]
      rw [hqe]
    · have hnd2 : (q.1 :: A.map Prod.fst).Nodup := by
        rw [List.map_cons] at hnd; exact hnd
      have hq2 : q.1 ∉ A.map Prod.fst := (List.nodup_cons.mp hnd2).1
      rw [if_neg]
      · exact ih g (List.nodup_cons.mp hnd2).2 p hmem
      · intro he
        exact hq2 (he ▸ List.mem_map.mpr ⟨p, hmem, rfl⟩)

/-- C7 counterexample: for the aggregate
`A = {"2025-07": {"広告費合計_A-M": 5}}` (an ad-classifier output shape),
`merge([A])` is not equal to `A` bucket-for-bucket: the merged month gains
the standard bucket `"Amazon"` (value 0), which `A` does not have. -/
theorem C7_counterexample :
    merge_monthly_data [[(toStr "2025-07", [(toStr "広告費合計_A-M", 5)])]] ≠
      [(toStr "2025-07", [(toStr "広告費合計_A-M", 5)])] ∧
    dHas (dGetD (merge_monthly_data
        [[(toStr "2025-07", [(toStr "広告費合計_A-M", 5)])]])
      (toStr "2025-07") []) (toStr "Amazon") = true ∧
    dHas [(toStr "広告費合計_A-M", (5 : Int))] (toStr "Amazon") = false := by
  refine ⟨by with_unfolding_all decide, by with_unfolding_all decide,
    by with_unfolding_all decide⟩

/-- C7 (amended): merging the singleton sequence `[A]` preserves exactly
`A`'s periods and agrees with `A` on every bucket `A` contains (same
amounts); buckets that `A` lacks appear in the merged aggregate precisely
when they are among the nine standard spreadsheet buckets, initialized to
`0`.  (So `merge([A]) = A` bucket-for-bucket only when every period of `A`
already declares all nine standard buckets.) -/
theorem C7_merge_singleton (A : ResultsZ) (hm : (A.map Prod.fst).Nodup)
    (hd : ∀ p ∈ A, (p.2.map Prod.fst).Nodup) :
    (merge_monthly_data [A]).map Prod.fst = A.map Prod.fst ∧
    ∀ p ∈ A, ∀ k : Str,
      dLookup (dGetD (merge_monthly_data [A]) p.1 []) k =
        (match dLookup p.2 k with
         | some v => some v
         | Option.none => if dHas mergeInit k then some (0 : Int) else Option.none) := by
  constructor
  · rw [merge_singleton_eq A hm, List.map_map]
    rfl
  · intro p hp k
    have hmonth : dLookup (merge_monthly_data [A]) p.1 =
        some (mergeBuckets p.2 mergeInit) := by
      rw [merge_singleton_eq A hm]
      exact dLookup_mapped A (fun q => mergeBuckets q.2 mergeInit) hm p hp
    rw [dGetD, hmonth, Option.getD_some,
      mergeBuckets_lookup p.2 mergeInit k (hd p hp)]
    cases dLookup p.2 k with
    | none => simpa using mergeInit_lookup k
    | some v => simp [mergeInit_getD]

/-- Witness for C7: the amended statement evaluated on the concrete
counterexample aggregate. -/
theorem C7_merge_singleton_witness :
    (merge_monthly_data [[(toStr "2025-07", [(toStr "広告費合計_A-M", 5)])]]).map Prod.fst =
      [(toStr "2025-07", [(toStr "広告費合計_A-M", (5 : Int))])].map Prod.fst ∧
    dLookup (dGetD (merge_monthly_data
        [[(toStr "2025-07", [(toStr "広告費合計_A-M", 5)])]])
      (toStr "2025-07") []) (toStr "広告費合計_A-M") = some 5 := by
  have h := C7_merge_singleton
    [(toStr "2025-07", [(toStr "広告費合計_A-M", (5 : Int))])]
    (by decide) (by decide)
  refine ⟨h.1, ?_⟩
  have h2 := h.2 (toStr "2025-07", [(toStr "広告費合計_A-M", (5 : Int))])
    (by decide) (toStr "広告費合計_A-M")
  rw [h2]
  with_unfolding_all decide

/-! ## C4/C5: expense routing -/

/-- Specification-side summary of one row's expense contributions: each
column with a truthy value converting to a negative number contributes its
absolute value, tagged with the first-match-wins category of the combined
text; all other columns contribute nothing. -/
def negContribsOf (row : Row) (cols : List (Key × Val)) : List (ExpCat × PyFloat) :=
  cols.filterMap (fun kv =>
    match kv.1 with
    | Option.none => Option.none
    | some key =>
      if truthyV kv.2 = true ∧ (safe_float_convert kv.2).ltZero = true then
        some (classifyExpense (combinedOf row (cleanKeyOf key)),
          (safe_float_convert kv.2).absF)
      else Option.none)

/-- The contributions of a whole row (the source iterates the row's own
columns). -/
def negContribs (row : Row) : List (ExpCat × PyFloat) := negContribsOf row row

/-- Specification-side routing: each contribution is added to exactly the
bucket of its category and, in the same step, to the grand expense-total
bucket. -/
def applyContribs (suffix : Str) (cs : List (ExpCat × PyFloat)) (md : DictF) : DictF :=
  cs.foldl (fun md c =>
    dAddF (dAddF md (catKey suffix c.1) c.2) (toStr "経費合計_" ++ suffix) c.2) md

theorem expenseColStep_some (suffix : Str) (row : Row) (md : DictF) (key : Str) (v : Val) :
    expenseColStep suffix row md (some key, v) =
      if truthyV v = false then .ok md
      else if (safe_float_convert v).ltZero then
        .ok (dAddF (dAddF md
          (catKey suffix (classifyExpense (combinedOf row (cleanKeyOf key))))
          (safe_float_convert v).absF)
          (toStr "経費合計_" ++ suffix) (safe_float_convert v).absF)
      else .ok md := by
  unfold expenseColStep classifyExpense catKey
  by_cases h1 : truthyV v = false
  · rw [if_pos h1, if_pos h1]
    rfl
  · rw [if_neg h1, if_neg h1]
    show (keyStr (some key) >>= _) = _
    by_cases h2 : (safe_float_convert v).ltZero = true
    · simp only [keyStr, h2]
      by_cases h3 : anyTerm fbaTerms (combinedOf row (cleanKeyOf key)) = true
      · simp [Bind.bind, Except.bind, pure, Except.pure, h3]
      · by_cases h4 : anyTerm commTerms (combinedOf row (cleanKeyOf key)) = true
        · simp [Bind.bind, Except.bind, pure, Except.pure, h3, h4]
        · by_cases h5 : anyTerm shipTerms (combinedOf row (cleanKeyOf key)) = true
          · simp [Bind.bind, Except.bind, pure, Except.pure, h3, h4, h5]
          · by_cases h6 : anyTerm pointTerms (combinedOf row (cleanKeyOf key)) = true
            · simp [Bind.bind, Except.bind, pure, Except.pure, h3, h4, h5, h6]
            · simp [Bind.bind, Except.bind, pure, Except.pure, h3, h4, h5, h6]
    · simp [Bind.bind, Except.bind, pure, Except.pure, keyStr, h2]

theorem expenseColsGo_eq (suffix : Str) (row : Row) :
    ∀ (cols : List (Key × Val)) (md : DictF),
      (∀ kv ∈ cols, kv.1 ≠ (Option.none : Key)) →
      expenseColsGo suffix row md cols =
        (applyContribs suffix (negContribsOf row cols) md, Option.none) := by
  intro cols
  induction cols with
  | nil => intro md _; rfl
  | cons kv rest ih =>
    intro md hgood
    have hk : kv.1 ≠ (Option.none : Key) := hgood kv (List.mem_cons_self kv rest)
    obtain ⟨key, hkey⟩ : ∃ key, kv.1 = some key := by
      cases hkv : kv.1 with
      | none => exact absurd hkv hk
      | some key => exact ⟨key, rfl⟩
    have hrest : ∀ kv2 ∈ rest, kv2.1 ≠ (Option.none : Key) :=
      fun kv2 h2 => hgood kv2 (List.mem_cons.mpr (Or.inr h2))
    have hkv2 : kv = (some key, kv.2) := by
      rw [← hkey]
    rw [hkv2]
    show (match expenseColStep suffix row md (some key, kv.2) with
      | .ok md2 => expenseColsGo suffix row md2 rest
      | .error e => (md, some e)) = _
    rw [expenseColStep_some]
    by_cases h1 : truthyV kv.2 = false
    · rw [if_pos h1]
      show expenseColsGo suffix row md rest = _
      rw [ih md hrest]
      have : negContribsOf row ((some key, kv.2) :: rest) = negContribsOf row rest := by
        unfold negContribsOf
        rw [List.filterMap_cons]
        simp [h1]
      rw [this]
    · rw [if_neg h1]
      by_cases h2 : (safe_float_convert kv.2).ltZero = true
      · rw [if_pos h2]
        have htr : truthyV kv.2 = true := by
          cases h : truthyV kv.2 with
          | false => exact absurd h h1
          | true => rfl
        show expenseColsGo suffix row _ rest = _
        rw [ih _ hrest]
        have : negContribsOf row ((some key, kv.2) :: rest) =
            (classifyExpense (combinedOf row (cleanKeyOf key)),
              (safe_float_convert kv.2).absF) :: negContribsOf row rest := by
          unfold negContribsOf
          rw [List.filterMap_cons]
          simp [htr, h2]
        rw [this]
        rfl
      · rw [if_neg h2]
        show expenseColsGo suffix row md rest = _
        rw [ih md hrest]
        have : negContribsOf row ((some key, kv.2) :: rest) = negContribsOf row rest := by
          unfold negContribsOf
          rw [List.filterMap_cons]
          simp [h2]
        rw [this]

/-- C4: in the expense classifier's column loop, only columns whose value
converts to a negative number contribute; each such column's absolute
value is routed to exactly one of the five category buckets — decided by
first-match keyword precedence FBA/fulfillment before commission before
shipping before point before the catch-all "other" over the combined
lower-cased text of column name, transaction-type field and description
field — and, in the same step, accumulated into the grand expense-total
bucket. -/
theorem C4_expense_routing (suffix : Str) (row : Row) (md : DictF)
    (hgood : ∀ kv ∈ row, kv.1 ≠ (Option.none : Key)) :
    expenseColsGo suffix row md row =
      (applyContribs suffix (negContribs row) md, Option.none) ∧
    (∀ c : Str, anyTerm fbaTerms c = true → classifyExpense c = ExpCat.fba) ∧
    (∀ c : Str, anyTerm fbaTerms c = false → anyTerm commTerms c = true →
      classifyExpense c = ExpCat.commission) ∧
    (∀ c : Str, anyTerm fbaTerms c = false → anyTerm commTerms c = false →
      anyTerm shipTerms c = true → classifyExpense c = ExpCat.shipping) ∧
    (∀ c : Str, anyTerm fbaTerms c = false → anyTerm commTerms c = false →
      anyTerm shipTerms c = false → anyTerm pointTerms c = true →
      classifyExpense c = ExpCat.point) ∧
    (∀ c : Str, anyTerm fbaTerms c = false → anyTerm commTerms c = false →
      anyTerm shipTerms c = false → anyTerm pointTerms c = false →
      classifyExpense c = ExpCat.other) := by
  refine ⟨expenseColsGo_eq suffix row row md hgood, ?_, ?_, ?_, ?_, ?_⟩
  · intro c h1
    unfold classifyExpense
    rw [if_pos h1]
  · intro c h1 h2
    unfold classifyExpense
    rw [if_neg (by rw [h1]; exact Bool.false_ne_true), if_pos h2]
  · intro c h1 h2 h3
    unfold classifyExpense
    rw [if_neg (by rw [h1]; exact Bool.false_ne_true),
      if_neg (by rw [h2]; exact Bool.false_ne_true), if_pos h3]
  · intro c h1 h2 h3 h4
    unfold classifyExpense
    rw [if_neg (by rw [h1]; exact Bool.false_ne_true),
      if_neg (by rw [h2]; exact Bool.false_ne_true),
      if_neg (by rw [h3]; exact Bool.false_ne_true), if_pos h4]
  · intro c h1 h2 h3 h4
    unfold classifyExpense
    rw [if_neg (by rw [h1]; exact Bool.false_ne_true),
      if_neg (by rw [h2]; exact Bool.false_ne_true),
      if_neg (by rw [h3]; exact Bool.false_ne_true),
      if_neg (by rw [h4]; exact Bool.false_ne_true)]

/-- Witness for C4: one row with a date column and one negative
FBA-keyword column, evaluated through the column loop. -/
theorem C4_expense_routing_witness :
    expenseColsGo (toStr "A-M")
      [(some (toStr "日付"), some (toStr "2025/07/15")),
       (some (toStr "FBA手数料"), some (toStr "-100"))]
      (expenseInit (toStr "A-M"))
      [(some (toStr "日付"), some (toStr "2025/07/15")),
       (some (toStr "FBA手数料"), some (toStr "-100"))] =
      (applyContribs (toStr "A-M")
        (negContribs
          [(some (toStr "日付"), some (toStr "2025/07/15")),
           (some (toStr "FBA手数料"), some (toStr "-100"))])
        (expenseInit (toStr "A-M")), Option.none) :=
  (C4_expense_routing (toStr "A-M")
    [(some (toStr "日付"), some (toStr "2025/07/15")),
     (some (toStr "FBA手数料"), some (toStr "-100"))]
    (expenseInit (toStr "A-M")) (by decide)).1

/-- C5 counterexample: a row whose point-cost field holds the positive
value `50` leaves the point-cost bucket at `0` through the whole expense
classifier — there is no unconditional point-cost contribution anywhere
in the code. -/
theorem C5_counterexample :
    dLookup (dGetD (process_expense_data_improved
        [[(some (toStr "日付"), some (toStr "2025/07/15")),
          (some (toStr "ポイント"), some (toStr "50"))]] (toStr "a_m"))
      (toStr "2025-07") []) (toStr "ポイント費用_A-M") = some 0 ∧
    (safe_float_convert (some (toStr "50"))).gtZero = true := by
  refine ⟨by with_unfolding_all decide, by with_unfolding_all decide⟩

/-- C5 (amended): the expense classifier has no always-checked point-cost
field: a contribution reaches the point-cost bucket only through the
negative-amount keyword routing.  A row none of whose values converts to a
negative number — in particular one whose point-cost field is positive —
contributes nothing to any bucket. -/
theorem C5_no_unconditional_point (suffix : Str) (row : Row) (md : DictF)
    (hgood : ∀ kv ∈ row, kv.1 ≠ (Option.none : Key))
    (hnn : ∀ kv ∈ row, (safe_float_convert kv.2).ltZero = false) :
    expenseColsGo suffix row md row = (md, Option.none) := by
  rw [expenseColsGo_eq suffix row row md hgood]
  have hnil : negContribsOf row row = [] := by
    unfold negContribsOf
    rw [List.filterMap_eq_nil_iff]
    intro kv hkv
    cases hk : kv.1 with
    | none => rfl
    | some key =>
      have := hnn kv hkv
      simp [this]
  rw [hnil]
  rfl

/-- Witness for C5: the positive-point-field row contributes nothing. -/
theorem C5_no_unconditional_point_witness :
    expenseColsGo (toStr "A-M")
      [(some (toStr "日付"), some (toStr "2025/07/15")),
       (some (toStr "ポイント"), some (toStr "50"))]
      (expenseInit (toStr "A-M"))
      [(some (toStr "日付"), some (toStr "2025/07/15")),
       (some (toStr "ポイント"), some (toStr "50"))] =
      (expenseInit (toStr "A-M"), Option.none) :=
  C5_no_unconditional_point (toStr "A-M")
    [(some (toStr "日付"), some (toStr "2025/07/15")),
     (some (toStr "ポイント"), some (toStr "50"))]
    (expenseInit (toStr "A-M")) (by decide)
    (by with_unfolding_all decide)

/-! ## C8: advertising-spend classifier -/

/-- A column qualifies as ad spend when its value is truthy, normalizes to
a strictly positive number, its cleaned name contains a spend keyword and
no excluded keyword (src/process_expense_ad.py 237-247). -/
def adQualifies (key : Str) (v : Val) : Bool :=
  truthyV v && (safe_float_convert v).gtZero &&
    anyTerm adIncludeTerms (cleanKeyOf key) && !(anyTerm adSkipTerms (cleanKeyOf key))

/-- Specification-side summary: the normalized value of the first
qualifying column of a row, if any. -/
def firstAdSpend (cols : List (Key × Val)) : Option PyFloat :=
  cols.findSome? (fun kv =>
    match kv.1 with
    | Option.none => Option.none
    | some key =>
      if adQualifies key kv.2 then some (safe_float_convert kv.2) else Option.none)

theorem adColsGo_found (sponKey totKey : Str) :
    ∀ (cols : List (Key × Val)) (md : DictF),
      adColsGo sponKey totKey md true cols = (md, Option.none) := by
  intro cols
  induction cols with
  | nil => intro md; rfl
  | cons kv rest ih =>
    intro md
    obtain ⟨k, v⟩ := kv
    show (if !truthyV v || true then adColsGo sponKey totKey md true rest else _) = _
    rw [if_pos (by simp), ih]

theorem adColsGo_eq (sponKey totKey : Str) :
    ∀ (cols : List (Key × Val)) (md : DictF),
      (∀ kv ∈ cols, kv.1 ≠ (Option.none : Key)) →
      adColsGo sponKey totKey md false cols =
        ((match firstAdSpend cols with
          | some a => dAddF (dAddF md sponKey a) totKey a
          | Option.none => md), Option.none) := by
  intro cols
  induction cols with
  | nil => intro md _; rfl
  | cons kv rest ih =>
    intro md hgood
    obtain ⟨k, v⟩ := kv
    have hk : (k, v).1 ≠ (Option.none : Key) := hgood (k, v) (List.mem_cons_self _ rest)
    obtain ⟨key, hkey⟩ : ∃ key, k = some key := by
      cases hkv : k with
      | none => exact absurd (by rw [hkv]) hk
      | some key => exact ⟨key, rfl⟩
    subst hkey
    have hrest : ∀ kv2 ∈ rest, kv2.1 ≠ (Option.none : Key) :=
      fun kv2 h2 => hgood kv2 (List.mem_cons.mpr (Or.inr h2))
    show (if !truthyV v || false then adColsGo sponKey totKey md false rest else _) = _
    by_cases htr : truthyV v = true
    · rw [if_neg (by simp [htr])]
      by_cases hq : ((safe_float_convert v).gtZero && anyTerm adIncludeTerms (cleanKeyOf key) &&
          !(anyTerm adSkipTerms (cleanKeyOf key))) = true
      · simp only [hq, if_true]
        rw [adColsGo_found]
        have hfq : adQualifies key v = true := by
          unfold adQualifies
          rw [htr]
          simp only [Bool.true_and]
          exact hq
        have : firstAdSpend ((some key, v) :: rest) = some (safe_float_convert v) := by
          unfold firstAdSpend
          rw [List.findSome?_cons]
          simp [hfq]
        rw [this]
      · have hqf : ((safe_float_convert v).gtZero && anyTerm adIncludeTerms (cleanKeyOf key) &&
            !(anyTerm adSkipTerms (cleanKeyOf key))) = false := by
          cases hb : ((safe_float_convert v).gtZero && anyTerm adIncludeTerms (cleanKeyOf key) &&
            !(anyTerm adSkipTerms (cleanKeyOf key))) with
          | false => rfl
          | true => exact absurd hb hq
        simp only [hqf, Bool.false_eq_true, if_false]
        rw [ih md hrest]
        have hfq : adQualifies key v = false := by
          unfold adQualifies
          rw [htr]
          simp only [Bool.true_and]
          cases hb : ((safe_float_convert v).gtZero && anyTerm adIncludeTerms (cleanKeyOf key) &&
            !(anyTerm adSkipTerms (cleanKeyOf key))) with
          | false => rfl
          | true => exact absurd hb hq
        have : firstAdSpend ((some key, v) :: rest) = firstAdSpend rest := by
          unfold firstAdSpend
          rw [List.findSome?_cons]
          simp [hfq]
        rw [this]
    · have htr2 : truthyV v = false := by
        cases h : truthyV v with
        | false => rfl
        | true => exact absurd h htr
      rw [if_pos (by simp [htr2]), ih md hrest]
      have hfq : adQualifies key v = false := by
        unfold adQualifies
        rw [htr2]
        rfl
      have : firstAdSpend ((some key, v) :: rest) = firstAdSpend rest := by
        unfold firstAdSpend
        rw [List.findSome?_cons]
        simp [hfq]
      rw [this]

theorem firstAdSpend_cons_none (v : Val) (rest : List (Key × Val)) :
    firstAdSpend (((Option.none : Key), v) :: rest) = firstAdSpend rest := by
  unfold firstAdSpend
  rw [List.findSome?_cons]

theorem firstAdSpend_cons_some (key : Str) (v : Val) (rest : List (Key × Val)) :
    firstAdSpend ((some key, v) :: rest) =
      if adQualifies key v = true then some (safe_float_convert v)
      else firstAdSpend rest := by
  unfold firstAdSpend
  rw [List.findSome?_cons]
  by_cases hq : adQualifies key v = true
  · simp [hq]
  · simp [hq]

theorem firstAdSpend_pos :
    ∀ (cols : List (Key × Val)) (a : PyFloat),
      firstAdSpend cols = some a → a.gtZero = true := by
  intro cols
  induction cols with
  | nil => intro a h; exact absurd h (by simp [firstAdSpend])
  | cons kv rest ih =>
    obtain ⟨k, v⟩ := kv
    intro a h
    cases k with
    | none =>
      rw [firstAdSpend_cons_none] at h
      exact ih a h
    | some key =>
      rw [firstAdSpend_cons_some] at h
      by_cases hq : adQualifies key v = true
      · rw [if_pos hq] at h
        have ha : a = safe_float_convert v := by
          have := h
          simp at this
          exact this.symm
        rw [ha]
        unfold adQualifies at hq
        have := (Bool.and_eq_true _ _).mp ((Bool.and_eq_true _ _).mp
          ((Bool.and_eq_true _ _).mp hq).1).1
        exact this.2
      · rw [if_neg hq] at h
        exact ih a h

/-- C8: in the ad classifier's column loop, only strictly positive
normalized values are accepted, at most one qualifying column contributes
per row — the loop's effect equals adding the FIRST qualifying column's
value, so later matching columns in the same row are never double-counted
— and the accepted amount is added to both the sponsored-ad bucket and
the grand ad-total bucket. -/
theorem C8_ad_first_match (sponKey totKey : Str) (cols : List (Key × Val)) (md : DictF)
    (hgood : ∀ kv ∈ cols, kv.1 ≠ (Option.none : Key)) :
    adColsGo sponKey totKey md false cols =
      ((match firstAdSpend cols with
        | some a => dAddF (dAddF md sponKey a) totKey a
        | Option.none => md), Option.none) ∧
    (∀ a : PyFloat, firstAdSpend cols = some a → a.gtZero = true) :=
  ⟨adColsGo_eq sponKey totKey cols md hgood, firstAdSpend_pos cols⟩

/-- Witness for C8: a row with two qualifying spend columns; only the
first is counted. -/
theorem C8_ad_first_match_witness :
    adColsGo (toStr "スポンサープロダクト広告_A-M") (toStr "広告費合計_A-M")
      (adInit (toStr "A-M")) false
      [(some (toStr "支出"), some (toStr "100")),
       (some (toStr "広告費"), some (toStr "200"))] =
      ((match firstAdSpend
          [(some (toStr "支出"), some (toStr "100")),
           (some (toStr "広告費"), some (toStr "200"))] with
        | some a => dAddF (dAddF (adInit (toStr "A-M"))
            (toStr "スポンサープロダクト広告_A-M") a) (toStr "広告費合計_A-M") a
        | Option.none => adInit (toStr "A-M")), Option.none) :=
  (C8_ad_first_match (toStr "スポンサープロダクト広告_A-M") (toStr "広告費合計_A-M")
    [(some (toStr "支出"), some (toStr "100")),
     (some (toStr "広告費"), some (toStr "200"))]
    (adInit (toStr "A-M")) (by decide)).1

/-! ## C9: declared buckets are always present -/

/-- Every period of the aggregate carries every declared bucket name. -/
def bucketsDeclared {α : Type} (decl : List Str) (r : List (Str × List (Str × α))) : Prop :=
  ∀ p ∈ r, ∀ k ∈ decl, dHas p.2 k = true

theorem dHas_iff_mem_keys {α : Type} (d : List (Str × α)) (k : Str) :
    dHas d k = true ↔ k ∈ d.map Prod.fst := by
  induction d with
  | nil => simp [dHas, dLookup_nil]
  | cons p d ih =>
    rw [dHas_cons, List.map_cons]
    simp only [Bool.or_eq_true, decide_eq_true_eq, List.mem_cons, ih]
    constructor
    · rintro (h | h)
      · exact Or.inl h.symm
      · exact Or.inr h
    · rintro (h | h)
      · exact Or.inl h.symm
      · exact Or.inr h

theorem dHas_dMapAt {α : Type} (d : List (Str × α)) (k : Str) (f : α → α) (k' : Str) :
    dHas (dMapAt d k f) k' = dHas d k' := by
  unfold dHas
  by_cases h : k' = k
  · rw [h, dLookup_dMapAt_self]
    cases dLookup d k <;> rfl
  · rw [dLookup_dMapAt_ne _ _ _ _ h]

theorem mem_dSet {α : Type} (d : List (Str × α)) (k : Str) (v : α) :
    ∀ p ∈ dSet d k v, p ∈ d ∨ p.2 = v := by
  unfold dSet
  by_cases h : dHas d k = true
  · rw [if_pos h]
    intro p hp
    rcases List.mem_map.mp hp with ⟨q, hq, he⟩
    by_cases hqk : q.1 = k
    · right
      rw [← he, if_pos (beq_iff_eq.mpr hqk)]
    · left
      rw [← he, if_neg (by simp [hqk])]
      exact hq
  · rw [if_neg h]
    intro p hp
    rcases List.mem_append.mp hp with h1 | h1
    · exact Or.inl h1
    · right
      rcases List.mem_singleton.mp h1 with h2
      rw [h2]

theorem mem_dMapAt {α : Type} (d : List (Str × α)) (k : Str) (f : α → α) :
    ∀ p ∈ dMapAt d k f, ∃ q ∈ d, p = q ∨ p = (q.1, f q.2) := by
  unfold dMapAt
  intro p hp
  rcases List.mem_map.mp hp with ⟨q, hq, he⟩
  refine ⟨q, hq, ?_⟩
  by_cases hqk : q.1 = k
  · right
    rw [← he, if_pos (beq_iff_eq.mpr hqk)]
  · left
    rw [← he, if_neg (by simp [hqk])]

theorem dLookup_mem {α : Type} (d : List (Str × α)) (k : Str) (v : α)
    (h : dLookup d k = some v) : (k, v) ∈ d := by
  unfold dLookup at h
  rcases Option.map_eq_some'.mp h with ⟨q, hf, hq2⟩
  have hmem := List.mem_of_find?_eq_some hf
  have hq1 : q.1 = k := by
    have hb := List.find?_some hf
    exact beq_iff_eq.mp hb
  have hqe : q = (k, v) := by
    cases q
    simp only at hq1 hq2
    rw [hq1, hq2]
  rw [← hqe]
  exact hmem

theorem dLookup_dSet_self {α : Type} (d : List (Str × α)) (k : Str) (v : α) :
    dLookup (dSet d k v) k = some v := by
  unfold dSet
  by_cases h : dHas d k = true
  · rw [if_pos h]
    have : d.map (fun p => if p.1 == k then (p.1, v) else p) = dMapAt d k (fun _ => v) := rfl
    rw [this, dLookup_dMapAt_self]
    unfold dHas at h
    cases hl : dLookup d k with
    | none => rw [hl] at h; simp at h
    | some x => rfl
  · rw [if_neg h, dLookup_append]
    have hnone : dLookup d k = Option.none := by
      unfold dHas at h
      cases hl : dLookup d k with
      | none => rfl
      | some x => rw [hl] at h; simp at h
    rw [hnone, dLookup_cons, if_pos rfl]

theorem expenseColStep_ok_dHas (suffix : Str) (row : Row) (md : DictF)
    (kv : Key × Val) (md2 : DictF) (h : expenseColStep suffix row md kv = .ok md2) :
    ∀ k, dHas md2 k = dHas md k := by
  intro k
  cases hkv : kv.1 with
  | none =>
    unfold expenseColStep at h
    rw [hkv] at h
    by_cases h1 : truthyV kv.2 = false
    · rw [if_pos h1] at h
      simp only [pure, Except.pure, Except.ok.injEq] at h
      rw [← h]
    · rw [if_neg h1] at h
      exact absurd h (by simp [keyStr, Bind.bind, Except.bind])
  | some key =>
    have hkv2 : kv = (some key, kv.2) := by rw [← hkv]
    rw [hkv2, expenseColStep_some] at h
    by_cases h1 : truthyV kv.2 = false
    · rw [if_pos h1] at h
      simp only [Except.ok.injEq] at h
      rw [← h]
    · rw [if_neg h1] at h
      by_cases h2 : (safe_float_convert kv.2).ltZero = true
      · rw [if_pos h2] at h
        simp only [Except.ok.injEq] at h
        rw [← h]
        unfold dAddF
        rw [dHas_dMapAt, dHas_dMapAt]
      · rw [if_neg h2] at h
        simp only [Except.ok.injEq] at h
        rw [← h]

theorem expenseColsGo_fst_dHas (suffix : Str) (row : Row) :
    ∀ (cols : List (Key × Val)) (md : DictF) (k : Str),
      dHas (expenseColsGo suffix row md cols).1 k = dHas md k := by
  intro cols
  induction cols with
  | nil => intro md k; rfl
  | cons kv rest ih =>
    intro md k
    show dHas (match expenseColStep suffix row md kv with
      | .ok md2 => expenseColsGo suffix row md2 rest
      | .error e => (md, some e)).1 k = dHas md k
    cases hstep : expenseColStep suffix row md kv with
    | ok md2 => rw [ih md2 k, expenseColStep_ok_dHas suffix row md kv md2 hstep k]
    | error e => rfl

theorem adColsGo_fst_dHas (sponKey totKey : Str) :
    ∀ (cols : List (Key × Val)) (md : DictF) (found : Bool) (k : Str),
      dHas (adColsGo sponKey totKey md found cols).1 k = dHas md k := by
  intro cols
  induction cols with
  | nil => intro md found k; rfl
  | cons kv rest ih =>
    intro md found k
    obtain ⟨kk, v⟩ := kv
    show dHas (if !truthyV v || found then adColsGo sponKey totKey md found rest
      else _).1 k = dHas md k
    by_cases hskip : (!truthyV v || found) = true
    · rw [if_pos hskip, ih]
    · rw [if_neg hskip]
      cases kk with
      | none => rfl
      | some key =>
        by_cases hq : ((safe_float_convert v).gtZero &&
            anyTerm adIncludeTerms (cleanKeyOf key) &&
            !(anyTerm adSkipTerms (cleanKeyOf key))) = true
        · simp only [hq, if_true]
          rw [ih]
          unfold dAddF
          rw [dHas_dMapAt, dHas_dMapAt]
        · have hqf : ((safe_float_convert v).gtZero &&
              anyTerm adIncludeTerms (cleanKeyOf key) &&
              !(anyTerm adSkipTerms (cleanKeyOf key))) = false := by
            cases hb : ((safe_float_convert v).gtZero &&
              anyTerm adIncludeTerms (cleanKeyOf key) &&
              !(anyTerm adSkipTerms (cleanKeyOf key))) with
            | false => rfl
            | true => exact absurd hb hq
          simp only [hqf, Bool.false_eq_true, if_false]
          rw [ih]

theorem makadColStep_dHas (aK fK : Str) (md : DictF) (kv : Key × Val) (k : Str) :
    dHas (makadColStep aK fK md kv) k = dHas md k := by
  unfold makadColStep
  cases kv.1 with
  | none => rfl
  | some key =>
    simp only [dAddF, dSubF]
    split_ifs <;> simp [dHas_dMapAt]

theorem makadCols_dHas (aK fK : Str) :
    ∀ (cols : List (Key × Val)) (md : DictF) (k : Str),
      dHas (cols.foldl (makadColStep aK fK) md) k = dHas md k := by
  intro cols
  induction cols with
  | nil => intro md k; rfl
  | cons kv rest ih =>
    intro md k
    rw [List.foldl_cons, ih, makadColStep_dHas]

theorem dIntify_keys :
    ∀ (d : DictF) (d2 : DictZ), dIntify d = .ok d2 →
      d2.map Prod.fst = d.map Prod.fst := by
  intro d
  induction d with
  | nil =>
    intro d2 h
    have : d2 = [] := by
      unfold dIntify at h
      simp only [List.mapM_nil, pure, Except.pure] at h
      exact (Except.ok.injEq _ _).mp h.symm
    rw [this]
    rfl
  | cons p d ih =>
    intro d2 h
    unfold dIntify at h
    rw [List.mapM_cons] at h
    cases hz : pyIntOfFloat p.2 with
    | error e =>
      rw [hz] at h
      exact absurd h (by simp [Bind.bind, Except.bind])
    | ok z =>
      rw [hz] at h
      cases hrest : d.mapM (fun p => do
          let z ← pyIntOfFloat p.2
          pure (p.1, z)) with
      | error e =>
        rw [hrest] at h
        exact absurd h (by simp [Bind.bind, Except.bind, pure, Except.pure])
      | ok bs =>
        rw [hrest] at h
        have hd2 : d2 = (p.1, z) :: bs := by
          have := h
          simp only [Bind.bind, Except.bind, pure, Except.pure] at this
          exact (Except.ok.injEq _ _).mp this.symm
        rw [hd2, List.map_cons, List.map_cons]
        have : bs.map Prod.fst = d.map Prod.fst := ih bs (by
          unfold dIntify
          rw [hrest])
        rw [this]

theorem resIntify_entries :
    ∀ (r : ResultsF) (r2 : ResultsZ), resIntify r = .ok r2 →
      ∀ p2 ∈ r2, ∃ p ∈ r, p2.1 = p.1 ∧ p2.2.map Prod.fst = p.2.map Prod.fst := by
  intro r
  induction r with
  | nil =>
    intro r2 h p2 hp2
    have : r2 = [] := by
      unfold resIntify at h
      simp only [List.mapM_nil, pure, Except.pure] at h
      exact (Except.ok.injEq _ _).mp h.symm
    rw [this] at hp2
    exact absurd hp2 (List.not_mem_nil p2)
  | cons p r ih =>
    intro r2 h p2 hp2
    unfold resIntify at h
    rw [List.mapM_cons] at h
    cases hz : dIntify p.2 with
    | error e =>
      rw [hz] at h
      exact absurd h (by simp [Bind.bind, Except.bind])
    | ok d2 =>
      rw [hz] at h
      cases hrest : r.mapM (fun p => do
          let d ← dIntify p.2
          pure (p.1, d)) with
      | error e =>
        rw [hrest] at h
        exact absurd h (by simp [Bind.bind, Except.bind, pure, Except.pure])
      | ok bs =>
        rw [hrest] at h
        have hr2 : r2 = (p.1, d2) :: bs := by
          have := h
          simp only [Bind.bind, Except.bind, pure, Except.pure] at this
          exact (Except.ok.injEq _ _).mp this.symm
        rw [hr2] at hp2
        rcases List.mem_cons.mp hp2 with he | hmem
        · refine ⟨p, List.mem_cons_self p r, ?_, ?_⟩
          · rw [he]
          · rw [he]
            exact dIntify_keys p.2 d2 hz
        · rcases ih bs (by unfold resIntify; rw [hrest]) p2 hmem with ⟨q, hq, h1, h2⟩
          exact ⟨q, List.mem_cons.mpr (Or.inr hq), h1, h2⟩

theorem bucketsDeclared_intify (decl : List Str) (r : ResultsF) (r2 : ResultsZ)
    (h : resIntify r = .ok r2) (hinv : bucketsDeclared decl r) :
    bucketsDeclared decl r2 := by
  intro p2 hp2 k hk
  rcases resIntify_entries r r2 h p2 hp2 with ⟨p, hp, _, hkeys⟩
  rw [dHas_iff_mem_keys, hkeys, ← dHas_iff_mem_keys]
  exact hinv p hp k hk

theorem expenseInit_keys (s : Str) : (expenseInit s).map Prod.fst = expenseKeys s := by
  unfold expenseInit
  rw [List.map_map]
  exact List.map_id' _

theorem adInit_keys (s : Str) : (adInit s).map Prod.fst = adKeys s := by
  unfold adInit
  rw [List.map_map]
  exact List.map_id' _

theorem step_inv_general (decl : List Str) (r : ResultsF) (month : Str)
    (initD : DictF) (f : DictF → DictF)
    (hinv : bucketsDeclared decl r)
    (hinit : ∀ k ∈ decl, dHas initD k = true)
    (hf : ∀ md k, dHas (f md) k = dHas md k) :
    bucketsDeclared decl
      (dSet (if dHas r month = true then r else dSet r month initD) month
        (f (dGetD (if dHas r month = true then r else dSet r month initD) month []))) := by
  have hinv1 : bucketsDeclared decl
      (if dHas r month = true then r else dSet r month initD) := by
    by_cases hh : dHas r month = true
    · rw [if_pos hh]; exact hinv
    · rw [if_neg hh]
      intro q hq k2 hk2
      rcases mem_dSet r month initD q hq with hq1 | hq2
      · exact hinv q hq1 k2 hk2
      · rw [hq2]
        exact hinit k2 hk2
  have hmd0 : ∀ k2 ∈ decl,
      dHas (dGetD (if dHas r month = true then r else dSet r month initD) month []) k2 = true := by
    by_cases hh : dHas r month = true
    · rw [if_pos hh]
      have hh2 := hh
      unfold dHas at hh2
      cases hl : dLookup r month with
      | none => rw [hl] at hh2; simp at hh2
      | some md =>
        intro k2 hk2
        have hm := dLookup_mem r month md hl
        have := hinv (month, md) hm k2 hk2
        rw [dGetD, hl, Option.getD_some]
        exact this
    · rw [if_neg hh]
      intro k2 hk2
      rw [dGetD, dLookup_dSet_self, Option.getD_some]
      exact hinit k2 hk2
  intro p hp k hk
  rcases mem_dSet _ month _ p hp with h1 | h2
  · exact hinv1 p h1 k hk
  · rw [h2, hf]
    exact hmd0 k hk

theorem expenseRowStep_ok (acct : Str) (r : ResultsF) (row : Row) (dv : Val)
    (h : expenseFindDate row = .ok dv) :
    expenseRowStep acct r row =
      (if truthyV dv = false then r
       else
         dSet (if dHas r (extract_month_from_date (pyValStr dv)) = true then r
             else dSet r (extract_month_from_date (pyValStr dv)) (expenseInit (suffixOf acct)))
           (extract_month_from_date (pyValStr dv))
           ((expenseColsGo (suffixOf acct) row
             (dGetD (if dHas r (extract_month_from_date (pyValStr dv)) = true then r
               else dSet r (extract_month_from_date (pyValStr dv)) (expenseInit (suffixOf acct)))
               (extract_month_from_date (pyValStr dv)) []) row).1)) := by
  unfold expenseRowStep
  rw [h]

theorem expenseRowStep_inv (acct : Str) (row : Row) (r : ResultsF)
    (hinv : bucketsDeclared (expenseKeys (suffixOf acct)) r) :
    bucketsDeclared (expenseKeys (suffixOf acct)) (expenseRowStep acct r row) := by
  cases hfd : expenseFindDate row with
  | error e =>
    have : expenseRowStep acct r row = r := by
      unfold expenseRowStep
      rw [hfd]
    rw [this]
    exact hinv
  | ok dv =>
    rw [expenseRowStep_ok acct r row dv hfd]
    by_cases htr : truthyV dv = false
    · rw [if_pos htr]; exact hinv
    · rw [if_neg htr]
      exact step_inv_general (expenseKeys (suffixOf acct)) r
        (extract_month_from_date (pyValStr dv)) (expenseInit (suffixOf acct))
        (fun md => (expenseColsGo (suffixOf acct) row md row).1) hinv
        (fun k hk => (dHas_iff_mem_keys _ _).mpr (by rw [expenseInit_keys]; exact hk))
        (fun md k => expenseColsGo_fst_dHas (suffixOf acct) row row md k)

theorem adRowStep_ok (acct : Str) (r : ResultsF) (row : Row) (dv0 : Val)
    (h : adFindDate row = .ok dv0) :
    adRowStep acct r row =
      (if truthyV (if truthyV dv0 = true then dv0 else adFindDateFallback row) = false then r
       else
         dSet (if dHas r (extract_month_from_date (pyValStr
               (if truthyV dv0 = true then dv0 else adFindDateFallback row))) = true then r
             else dSet r (extract_month_from_date (pyValStr
               (if truthyV dv0 = true then dv0 else adFindDateFallback row)))
               (adInit (suffixOf acct)))
           (extract_month_from_date (pyValStr
             (if truthyV dv0 = true then dv0 else adFindDateFallback row)))
           ((adColsGo (toStr "スポンサープロダクト広告_" ++ suffixOf acct)
             (toStr "広告費合計_" ++ suffixOf acct)
             (dGetD (if dHas r (extract_month_from_date (pyValStr
                 (if truthyV dv0 = true then dv0 else adFindDateFallback row))) = true then r
               else dSet r (extract_month_from_date (pyValStr
                 (if truthyV dv0 = true then dv0 else adFindDateFallback row)))
                 (adInit (suffixOf acct)))
               (extract_month_from_date (pyValStr
                 (if truthyV dv0 = true then dv0 else adFindDateFallback row))) [])
             false row).1)) := by
  unfold adRowStep
  rw [h]

theorem adRowStep_inv (acct : Str) (row : Row) (r : ResultsF)
    (hinv : bucketsDeclared (adKeys (suffixOf acct)) r) :
    bucketsDeclared (adKeys (suffixOf acct)) (adRowStep acct r row) := by
  cases hfd : adFindDate row with
  | error e =>
    have : adRowStep acct r row = r := by
      unfold adRowStep
      rw [hfd]
    rw [this]
    exact hinv
  | ok dv0 =>
    rw [adRowStep_ok acct r row dv0 hfd]
    by_cases htr : truthyV (if truthyV dv0 = true then dv0 else adFindDateFallback row) = false
    · rw [if_pos htr]; exact hinv
    · rw [if_neg htr]
      exact step_inv_general (adKeys (suffixOf acct)) r
        (extract_month_from_date (pyValStr
          (if truthyV dv0 = true then dv0 else adFindDateFallback row)))
        (adInit (suffixOf acct))
        (fun md => (adColsGo (toStr "スポンサープロダクト広告_" ++ suffixOf acct)
          (toStr "広告費合計_" ++ suffixOf acct) md false row).1) hinv
        (fun k hk => (dHas_iff_mem_keys _ _).mpr (by rw [adInit_keys]; exact hk))
        (fun md k => adColsGo_fst_dHas _ _ row md false k)

theorem makadRowE_inv (acct : Str) (r : ResultsF) (row : Row) (r2 : ResultsF)
    (hok : makadRowE acct r row = .ok r2)
    (hinv : bucketsDeclared ((makadInit acct).map Prod.fst) r) :
    bucketsDeclared ((makadInit acct).map Prod.fst) r2 := by
  unfold makadRowE at hok
  cases hfd : makadFindDate row with
  | error e =>
    rw [hfd] at hok
    exact absurd hok (by simp [Bind.bind, Except.bind])
  | ok dv =>
    rw [hfd] at hok
    by_cases htr : truthyV dv = false
    · rw [show ((Except.ok dv >>= _ : Except PyErr ResultsF)) = _ from rfl] at hok
      simp only [Bind.bind, Except.bind, htr, if_true, pure, Except.pure,
        Except.ok.injEq] at hok
      rw [← hok]
      exact hinv
    · have htr2 : truthyV dv = true := by
        cases h : truthyV dv with
        | false => exact absurd h htr
        | true => rfl
      simp only [Bind.bind, Except.bind, htr2, Bool.true_eq_false, if_false, pure,
        Except.pure, Except.ok.injEq] at hok
      rw [← hok]
      intro p hp k hk
      rcases mem_dMapAt _ _ _ p hp with ⟨q, hq, hcase⟩
      have hinv1 : bucketsDeclared ((makadInit acct).map Prod.fst)
          (if dHas r (extract_month_from_date (pyValStr dv)) = true then r
           else dSet r (extract_month_from_date (pyValStr dv)) (makadInit acct)) := by
        by_cases hh : dHas r (extract_month_from_date (pyValStr dv)) = true
        · rw [if_pos hh]; exact hinv
        · rw [if_neg hh]
          intro q2 hq2 k2 hk2
          rcases mem_dSet r _ _ q2 hq2 with hq3 | hq4
          · exact hinv q2 hq3 k2 hk2
          · rw [hq4]
            exact (dHas_iff_mem_keys _ _).mpr hk2
      rcases hcase with hc1 | hc2
      · rw [hc1]
        exact hinv1 q hq k hk
      · rw [hc2]
        show dHas (List.foldl (makadColStep (makadAmazonKey acct) (makadFeeKey acct)) q.2 row) k = true
        rw [makadCols_dHas]
        exact hinv1 q hq k hk

theorem mercariColStep_dHas (md : DictF) (kv : Key × Val) (k : Str) :
    dHas (mercariColStep md kv) k = dHas md k := by
  unfold mercariColStep
  cases kv.1 with
  | none => rfl
  | some key =>
    simp only [dAddF]
    split_ifs <;> simp [dHas_dMapAt]

theorem mercariCols_dHas :
    ∀ (cols : List (Key × Val)) (md : DictF) (k : Str),
      dHas (cols.foldl mercariColStep md) k = dHas md k := by
  intro cols
  induction cols with
  | nil => intro md k; rfl
  | cons kv rest ih =>
    intro md k
    rw [List.foldl_cons, ih, mercariColStep_dHas]

theorem hanroColStep_dHas (acct mall : Str) (md : DictF) (kv : Key × Val) (k : Str) :
    dHas (hanroColStep acct mall md kv) k = dHas md k := by
  unfold hanroColStep
  cases kv.1 with
  | none => rfl
  | some key =>
    simp only [dAddF]
    split_ifs <;> simp [dHas_dMapAt]

theorem hanroCols_dHas (acct mall : Str) :
    ∀ (cols : List (Key × Val)) (md : DictF) (k : Str),
      dHas (cols.foldl (hanroColStep acct mall) md) k = dHas md k := by
  intro cols
  induction cols with
  | nil => intro md k; rfl
  | cons kv rest ih =>
    intro md k
    rw [List.foldl_cons, ih, hanroColStep_dHas]

theorem mercariRowE_inv (r : ResultsF) (row : Row) (r2 : ResultsF)
    (hok : mercariRowE r row = .ok r2)
    (hinv : bucketsDeclared (mercariInit.map Prod.fst) r) :
    bucketsDeclared (mercariInit.map Prod.fst) r2 := by
  unfold mercariRowE at hok
  cases hfd : makadFindDate row with
  | error e =>
    rw [hfd] at hok
    exact absurd hok (by simp [Bind.bind, Except.bind])
  | ok dv =>
    rw [hfd] at hok
    by_cases htr : truthyV dv = false
    · simp only [Bind.bind, Except.bind, htr, if_true, pure, Except.pure,
        Except.ok.injEq] at hok
      rw [← hok]
      exact hinv
    · have htr2 : truthyV dv = true := by
        cases h : truthyV dv with
        | false => exact absurd h htr
        | true => rfl
      simp only [Bind.bind, Except.bind, htr2, Bool.true_eq_false, if_false, pure,
        Except.pure, Except.ok.injEq] at hok
      rw [← hok]
      intro p hp k hk
      rcases mem_dMapAt _ _ _ p hp with ⟨q, hq, hcase⟩
      have hinv1 : bucketsDeclared (mercariInit.map Prod.fst)
          (if dHas r (extract_month_from_date (pyValStr dv)) = true then r
           else dSet r (extract_month_from_date (pyValStr dv)) mercariInit) := by
        by_cases hh : dHas r (extract_month_from_date (pyValStr dv)) = true
        · rw [if_pos hh]; exact hinv
        · rw [if_neg hh]
          intro q2 hq2 k2 hk2
          rcases mem_dSet r _ _ q2 hq2 with hq3 | hq4
          · exact hinv q2 hq3 k2 hk2
          · rw [hq4]
            exact (dHas_iff_mem_keys _ _).mpr hk2
      rcases hcase with hc1 | hc2
      · rw [hc1]
        exact hinv1 q hq k hk
      · rw [hc2]
        show dHas (List.foldl mercariColStep q.2 row) k = true
        rw [mercariCols_dHas]
        exact hinv1 q hq k hk

theorem hanroRowE_inv (acct : Str) (r : ResultsF) (row : Row) (r2 : ResultsF)
    (hok : hanroRowE acct r row = .ok r2)
    (hinv : bucketsDeclared (hanroInit.map Prod.fst) r) :
    bucketsDeclared (hanroInit.map Prod.fst) r2 := by
  unfold hanroRowE at hok
  cases hfd : hanroFindDate row with
  | error e =>
    rw [hfd] at hok
    exact absurd hok (by simp [Bind.bind, Except.bind])
  | ok dv =>
    rw [hfd] at hok
    by_cases htr : truthyV dv = false
    · simp only [Bind.bind, Except.bind, htr, if_true, pure, Except.pure,
        Except.ok.injEq] at hok
      rw [← hok]
      exact hinv
    · have htr2 : truthyV dv = true := by
        cases h : truthyV dv with
        | false => exact absurd h htr
        | true => rfl
      cases hml : hanroMall row with
      | error e =>
        simp only [Bind.bind, Except.bind, htr2, Bool.true_eq_false, if_false,
          hml] at hok
        exact absurd hok (by simp)
      | ok mall =>
        simp only [Bind.bind, Except.bind, htr2, Bool.true_eq_false, if_false, hml,
          pure, Except.pure, Except.ok.injEq] at hok
        rw [← hok]
        intro p hp k hk
        rcases mem_dMapAt _ _ _ p hp with ⟨q, hq, hcase⟩
        have hinv1 : bucketsDeclared (hanroInit.map Prod.fst)
            (if dHas r (extract_month_from_date (pyValStr dv)) = true then r
             else dSet r (extract_month_from_date (pyValStr dv)) hanroInit) := by
          by_cases hh : dHas r (extract_month_from_date (pyValStr dv)) = true
          · rw [if_pos hh]; exact hinv
          · rw [if_neg hh]
            intro q2 hq2 k2 hk2
            rcases mem_dSet r _ _ q2 hq2 with hq3 | hq4
            · exact hinv q2 hq3 k2 hk2
            · rw [hq4]
              exact (dHas_iff_mem_keys _ _).mpr hk2
        rcases hcase with hc1 | hc2
        · rw [hc1]
          exact hinv1 q hq k hk
        · rw [hc2]
          show dHas (List.foldl (hanroColStep acct mall) q.2 row) k = true
          rw [hanroCols_dHas]
          exact hinv1 q hq k hk

theorem foldl_inv_general {σ : Type} (P : σ → Prop) (step : σ → Row → σ)
    (hstep : ∀ s row, P s → P (step s row)) :
    ∀ (data : List Row) (s : σ), P s → P (data.foldl step s) := by
  intro data
  induction data with
  | nil => intro s hs; exact hs
  | cons row data ih =>
    intro s hs
    rw [List.foldl_cons]
    exact ih (step s row) (hstep s row hs)

theorem makad_foldlM_inv (acct : Str) :
    ∀ (data : List Row) (s s2 : ResultsF),
      bucketsDeclared ((makadInit acct).map Prod.fst) s →
      data.foldlM (makadRowE acct) s = .ok s2 →
      bucketsDeclared ((makadInit acct).map Prod.fst) s2 := by
  intro data
  induction data with
  | nil =>
    intro s s2 hs h
    simp only [List.foldlM_nil, pure, Except.pure, Except.ok.injEq] at h
    rw [← h]
    exact hs
  | cons row data ih =>
    intro s s2 hs h
    rw [List.foldlM_cons] at h
    cases hr : makadRowE acct s row with
    | error e =>
      rw [hr] at h
      exact absurd h (by simp [Bind.bind, Except.bind])
    | ok s1 =>
      rw [hr] at h
      exact ih s1 s2 (makadRowE_inv acct s row s1 hr hs) h

theorem foldlM_inv_general (P : ResultsF → Prop)
    (step : ResultsF → Row → Except PyErr ResultsF)
    (hstep : ∀ s row s2, step s row = .ok s2 → P s → P s2) :
    ∀ (data : List Row) (s s2 : ResultsF), P s →
      data.foldlM step s = .ok s2 → P s2 := by
  intro data
  induction data with
  | nil =>
    intro s s2 hs h
    simp only [List.foldlM_nil, pure, Except.pure, Except.ok.injEq] at h
    rw [← h]
    exact hs
  | cons row data ih =>
    intro s s2 hs h
    rw [List.foldlM_cons] at h
    cases hr : step s row with
    | error e =>
      rw [hr] at h
      exact absurd h (by simp [Bind.bind, Except.bind])
    | ok s1 =>
      rw [hr] at h
      exact ih s1 s2 (hstep s row s1 hr hs) h

/-- C9: for each of the five classifiers, every period present in the
final aggregate carries every bucket name the source type (and account
variant) declares — the first touch of a period initializes all declared
buckets to zero, and no later step removes a key — even when a declared
bucket never receives any contribution. -/
theorem C9_declared_buckets (data : List Row) (account_type : Str) :
    (∀ p ∈ process_makad_data data account_type,
      ∀ k ∈ (makadInit account_type).map Prod.fst, dHas p.2 k = true) ∧
    (∀ p ∈ process_expense_data_improved data account_type,
      ∀ k ∈ expenseKeys (suffixOf account_type), dHas p.2 k = true) ∧
    (∀ p ∈ process_ad_data_improved data account_type,
      ∀ k ∈ adKeys (suffixOf account_type), dHas p.2 k = true) ∧
    (∀ p ∈ process_mercari_data data,
      ∀ k ∈ mercariInit.map Prod.fst, dHas p.2 k = true) ∧
    (∀ p ∈ process_hanro_data data account_type,
      ∀ k ∈ hanroInit.map Prod.fst, dHas p.2 k = true) := by
  refine ⟨?_, ?_, ?_, ?_, ?_⟩
  · intro p hp k hk
    unfold process_makad_data at hp
    cases hfold : data.foldlM (makadRowE account_type) [] with
    | error e =>
      rw [hfold] at hp
      exact absurd hp (by simp [Bind.bind, Except.bind])
    | ok rf =>
      rw [hfold] at hp
      have hp2 : p ∈ (match resIntify rf with
        | .ok r => r
        | .error _ => ([] : ResultsZ)) := hp
      cases hint : resIntify rf with
      | error e =>
        rw [hint] at hp2
        exact absurd hp2 (List.not_mem_nil p)
      | ok rz =>
        rw [hint] at hp2
        have hbase : bucketsDeclared ((makadInit account_type).map Prod.fst)
            ([] : ResultsF) := fun q hq => absurd hq (List.not_mem_nil q)
        exact bucketsDeclared_intify _ rf rz hint
          (makad_foldlM_inv account_type data [] rf hbase hfold) p hp2 k hk
  · intro p hp k hk
    unfold process_expense_data_improved at hp
    cases hint : resIntify (data.foldl (expenseRowStep account_type) []) with
    | error e =>
      rw [hint] at hp
      exact absurd hp (List.not_mem_nil p)
    | ok rz =>
      rw [hint] at hp
      have hbase : bucketsDeclared (expenseKeys (suffixOf account_type))
          ([] : ResultsF) := fun q hq => absurd hq (List.not_mem_nil q)
      exact bucketsDeclared_intify _ _ rz hint
        (foldl_inv_general _ (expenseRowStep account_type)
          (fun s row hs => expenseRowStep_inv account_type row s hs) data [] hbase)
        p hp k hk
  · intro p hp k hk
    unfold process_ad_data_improved at hp
    cases hint : resIntify (data.foldl (adRowStep account_type) []) with
    | error e =>
      rw [hint] at hp
      exact absurd hp (List.not_mem_nil p)
    | ok rz =>
      rw [hint] at hp
      have hbase : bucketsDeclared (adKeys (suffixOf account_type))
          ([] : ResultsF) := fun q hq => absurd hq (List.not_mem_nil q)
      exact bucketsDeclared_intify _ _ rz hint
        (foldl_inv_general _ (adRowStep account_type)
          (fun s row hs => adRowStep_inv account_type row s hs) data [] hbase)
        p hp k hk
  · intro p hp k hk
    unfold process_mercari_data at hp
    cases hfold : data.foldlM mercariRowE [] with
    | error e =>
      rw [hfold] at hp
      exact absurd hp (by simp [Bind.bind, Except.bind])
    | ok rf =>
      rw [hfold] at hp
      have hp2 : p ∈ (match resIntify rf with
        | .ok r => r
        | .error _ => ([] : ResultsZ)) := hp
      cases hint : resIntify rf with
      | error e =>
        rw [hint] at hp2
        exact absurd hp2 (List.not_mem_nil p)
      | ok rz =>
        rw [hint] at hp2
        have hbase : bucketsDeclared (mercariInit.map Prod.fst)
            ([] : ResultsF) := fun q hq => absurd hq (List.not_mem_nil q)
        exact bucketsDeclared_intify _ rf rz hint
          (foldlM_inv_general _ mercariRowE
            (fun s row s2 hok hs => mercariRowE_inv s row s2 hok hs)
            data [] rf hbase hfold) p hp2 k hk
  · intro p hp k hk
    unfold process_hanro_data at hp
    cases hfold : data.foldlM (hanroRowE account_type) [] with
    | error e =>
      rw [hfold] at hp
      exact absurd hp (by simp [Bind.bind, Except.bind])
    | ok rf =>
      rw [hfold] at hp
      have hp2 : p ∈ (match resIntify rf with
        | .ok r => r
        | .error _ => ([] : ResultsZ)) := hp
      cases hint : resIntify rf with
      | error e =>
        rw [hint] at hp2
        exact absurd hp2 (List.not_mem_nil p)
      | ok rz =>
        rw [hint] at hp2
        have hbase : bucketsDeclared (hanroInit.map Prod.fst)
            ([] : ResultsF) := fun q hq => absurd hq (List.not_mem_nil q)
        exact bucketsDeclared_intify _ rf rz hint
          (foldlM_inv_general _ (hanroRowE account_type)
            (fun s row s2 hok hs => hanroRowE_inv account_type s row s2 hok hs)
            data [] rf hbase hfold) p hp2 k hk

/-- Witness for C9: the ledger classifier on one concrete row declares the
never-touched bucket `メルカリShops` in its output month. -/
theorem C9_declared_buckets_witness :
    dHas [(toStr "Amazon", (1000 : Int)),
      (toStr "メルカリShops", 0),
      (toStr "プラットフォーム手数料_Amazon", 0),
      (toStr "プラットフォーム手数料_メルカリ", 0),
      (toStr "運送費（送料）", 0),
      (toStr "売上総利益", 0),
      (toStr "売上高合計", 1000)] (toStr "メルカリShops") = true :=
  (C9_declared_buckets
    [[(some (toStr "日付"), some (toStr "2025/07/01")),
      (some (toStr "販売価格"), some (toStr "1000"))]] (toStr "a_m")).1
    (toStr "2025-07",
      [(toStr "Amazon", 1000),
       (toStr "メルカリShops", 0),
       (toStr "プラットフォーム手数料_Amazon", 0),
       (toStr "プラットフォーム手数料_メルカリ", 0),
       (toStr "運送費（送料）", 0),
       (toStr "売上総利益", 0),
       (toStr "売上高合計", 1000)])
    (by with_unfolding_all decide)
    (toStr "メルカリShops") (by decide)

/-! ## C1: trend projector -/

/-- The change formula as worded by claim C1: `0` if the previous value is
0 and the current value is ≤ 0; `100` if the previous value is 0 and the
current value is > 0; otherwise `(current - previous) / previous * 100`.
The claim's "any NaN or Infinity result coerced to 0" clause is vacuous
over exact rationals, where a nonzero divisor always yields a finite
result. -/
def changeSpec (p c : ℚ) : ℚ :=
  if p = ratZero ∧ c ≤ ratZero then ratZero
  else if p = ratZero ∧ ratZero < c then rat100
  else (c - p) / p * rat100

theorem calcChange_eq_spec (p c : ℚ) :
    calculate_change_percentage p c = changeSpec p c := by
  unfold calculate_change_percentage changeSpec
  by_cases hp : p = ratZero
  · rw [if_pos hp]
    by_cases hc : ratZero < c
    · rw [if_pos hc, if_neg (fun h => absurd hc (not_lt.mpr h.2)), if_pos ⟨hp, hc⟩]
    · rw [if_neg hc, if_pos ⟨hp, not_lt.mp hc⟩]
  · rw [if_neg hp, if_neg (fun h => hp h.1), if_neg (fun h => hp h.1)]

theorem convertGo_period :
    ∀ (l : List (Str × DictZ)) (prev : Option ReportRow),
      (convertGo l prev).map (fun r => r.period) = l.map Prod.fst := by
  intro l
  induction l with
  | nil => intro prev; rfl
  | cons q rest ih =>
    intro prev
    obtain ⟨k, d⟩ := q
    cases prev with
    | none =>
      show (mkRow k d :: convertGo rest (some (mkRow k d))).map (fun r => r.period) = _
      rw [List.map_cons, ih]
      rfl
    | some p =>
      show ({ mkRow k d with
          salesChange := calculate_change_percentage (intQ p.totalRevenue)
            (intQ (mkRow k d).totalRevenue)
          profitChange := calculate_change_percentage (intQ p.grossProfit)
            (intQ (mkRow k d).grossProfit) } ::
          convertGo rest (some _)).map (fun r => r.period) = _
      rw [List.map_cons, ih]
      rfl

theorem convertGo_chain :
    ∀ (l : List (Str × DictZ)) (p : ReportRow),
      List.Chain' (fun a b : ReportRow =>
        b.salesChange = calculate_change_percentage (intQ a.totalRevenue) (intQ b.totalRevenue) ∧
        b.profitChange = calculate_change_percentage (intQ a.grossProfit) (intQ b.grossProfit))
        (p :: convertGo l (some p)) := by
  intro l
  induction l with
  | nil => intro p; exact List.chain'_singleton p
  | cons q rest ih =>
    intro p
    obtain ⟨k, d⟩ := q
    show List.Chain' _ (p :: { mkRow k d with
      salesChange := calculate_change_percentage (intQ p.totalRevenue)
        (intQ (mkRow k d).totalRevenue)
      profitChange := calculate_change_percentage (intQ p.grossProfit)
        (intQ (mkRow k d).grossProfit) } :: convertGo rest (some _))
    exact List.chain'_cons.mpr ⟨⟨rfl, rfl⟩, ih _⟩

/-- C1: for every unified aggregate (bucket dictionary keyed by pairwise
distinct period keys), the Trend Projector's output rows are sorted
strictly ascending by period key, the first row has 0 for both change
fields, and every later row's change fields follow the claimed formula
relative to the immediately preceding row's totals. -/
theorem C1_trend_projector (merged : ResultsZ)
    (hnd : (merged.map Prod.fst).Nodup) :
    ((convert_to_spreadsheet_format merged).headD (mkRow [] [])).salesChange = ratZero ∧
    ((convert_to_spreadsheet_format merged).headD (mkRow [] [])).profitChange = ratZero ∧
    List.Chain' (fun a b : ReportRow => a.period < b.period)
      (convert_to_spreadsheet_format merged) ∧
    List.Chain' (fun a b : ReportRow =>
      b.salesChange = changeSpec (intQ a.totalRevenue) (intQ b.totalRevenue) ∧
      b.profitChange = changeSpec (intQ a.grossProfit) (intQ b.grossProfit))
      (convert_to_spreadsheet_format merged) := by
  have hfirst : ((convert_to_spreadsheet_format merged).headD (mkRow [] [])).salesChange = ratZero ∧
      ((convert_to_spreadsheet_format merged).headD (mkRow [] [])).profitChange = ratZero := by
    unfold convert_to_spreadsheet_format
    cases hs : sortByKey merged with
    | nil => exact ⟨rfl, rfl⟩
    | cons q rest =>
      obtain ⟨k, d⟩ := q
      exact ⟨rfl, rfl⟩
  refine ⟨hfirst.1, hfirst.2, ?_, ?_⟩
  · -- sortedness
    have hperm : (sortByKey merged).Perm merged := List.perm_insertionSort _ merged
    have hkeysnd : ((sortByKey merged).map Prod.fst).Nodup :=
      ((hperm.map Prod.fst).nodup_iff).mpr hnd
    have hsorted : List.Pairwise (fun a b : Str × DictZ => a.1 ≤ b.1) (sortByKey merged) := by
      haveI h1 : IsTotal (Str × DictZ) (fun a b => a.1 ≤ b.1) :=
        ⟨fun a b => le_total a.1 b.1⟩
      haveI h2 : IsTrans (Str × DictZ) (fun a b => a.1 ≤ b.1) :=
        ⟨fun a b c hab hbc => le_trans hab hbc⟩
      exact List.sorted_insertionSort _ merged
    have hne : List.Pairwise (fun a b : Str × DictZ => a.1 ≠ b.1) (sortByKey merged) :=
      (List.pairwise_map).mp hkeysnd
    have hlt : List.Pairwise (fun a b : Str × DictZ => a.1 < b.1) (sortByKey merged) :=
      (hsorted.and hne).imp (fun h => lt_of_le_of_ne h.1 h.2)
    have h3 : List.Pairwise (fun x y : Str => x < y) ((sortByKey merged).map Prod.fst) :=
      (List.pairwise_map).mpr hlt
    have h4 : List.Pairwise (fun x y : Str => x < y)
        ((convertGo (sortByKey merged) Option.none).map (fun r => r.period)) := by
      rw [convertGo_period]
      exact h3
    exact ((List.pairwise_map).mp h4).chain'
  · -- change-field recurrence
    have hcalc : List.Chain' (fun a b : ReportRow =>
        b.salesChange = calculate_change_percentage (intQ a.totalRevenue) (intQ b.totalRevenue) ∧
        b.profitChange = calculate_change_percentage (intQ a.grossProfit) (intQ b.grossProfit))
        (convert_to_spreadsheet_format merged) := by
      unfold convert_to_spreadsheet_format
      cases hs : sortByKey merged with
      | nil => exact List.chain'_nil
      | cons q rest =>
        obtain ⟨k, d⟩ := q
        show List.Chain' _ (mkRow k d :: convertGo rest (some (mkRow k d)))
        exact convertGo_chain rest (mkRow k d)
    exact hcalc.imp (fun a b h => ⟨by rw [h.1, calcChange_eq_spec], by rw [h.2, calcChange_eq_spec]⟩)

/-- Witness for C1: a concrete two-month aggregate, given out of order. -/
theorem C1_trend_projector_witness :
    ((convert_to_spreadsheet_format
        [(toStr "2025-08", [(toStr "売上高合計", 150), (toStr "売上総利益", 20)]),
         (toStr "2025-07", [(toStr "売上高合計", 100), (toStr "売上総利益", 20)])]).headD
      (mkRow [] [])).salesChange = ratZero ∧
    ((convert_to_spreadsheet_format
        [(toStr "2025-08", [(toStr "売上高合計", 150), (toStr "売上総利益", 20)]),
         (toStr "2025-07", [(toStr "売上高合計", 100), (toStr "売上総利益", 20)])]).headD
      (mkRow [] [])).profitChange = ratZero ∧
    List.Chain' (fun a b : ReportRow => a.period < b.period)
      (convert_to_spreadsheet_format
        [(toStr "2025-08", [(toStr "売上高合計", 150), (toStr "売上総利益", 20)]),
         (toStr "2025-07", [(toStr "売上高合計", 100), (toStr "売上総利益", 20)])]) ∧
    List.Chain' (fun a b : ReportRow =>
      b.salesChange = changeSpec (intQ a.totalRevenue) (intQ b.totalRevenue) ∧
      b.profitChange = changeSpec (intQ a.grossProfit) (intQ b.grossProfit))
      (convert_to_spreadsheet_format
        [(toStr "2025-08", [(toStr "売上高合計", 150), (toStr "売上総利益", 20)]),
         (toStr "2025-07", [(toStr "売上高合計", 100), (toStr "売上総利益", 20)])]) :=
  C1_trend_projector
    [(toStr "2025-08", [(toStr "売上高合計", 150), (toStr "売上総利益", 20)]),
     (toStr "2025-07", [(toStr "売上高合計", 100), (toStr "売上総利益", 20)])]
    (by decide)

end APC
